import Mathlib

/-!
DrawCkt: shallow embedding and verification of the core engines

This file embeds the geometric transform engine (`drawrs/src/transform.rs`),
the layer-order validation (`drawckt/src/renderer.rs`, `init_layers`) and the
line-merge engine (`drawckt/src/renderer.rs`, `merge_lines`) of the DrawCkt
repository, and proves the specification claims about them.

Machine floating-point coordinates (`f64` wrapped in `OrderedFloat`, compared
bit-exactly) are modelled as `ℚ` with decidable exact equality; the algorithms
under scrutiny only ever compare coordinates for exact equality and combine
them by `+`, `-`, unary `-` and division by `2`, so the algebraic structure is
the same.  Rust's in-place mutation is modelled by explicit state passing, and
fallible functions return `Except`.
-/

set_option maxHeartbeats 1000000

namespace DrawCkt

/-- A 2D point (`[OrderedFloat<f64>; 2]` in the source), compared exactly. -/
abbrev Point : Type := ℚ × ℚ

/-- A polyline: ordered sequence of points (`Vec<[OrderedFloat<f64>; 2]>`). -/
abbrev Line : Type := List Point

/-! ## `drawrs/src/transform.rs` -/

/-- The 8 physical orientations (`enum Orient`). -/
inductive Orient where
  | R0 | R90 | R180 | R270 | MY | MX | MYR90 | MXR90
  deriving DecidableEq, Repr

/-- `struct BoundingBox { min_x, min_y, width, height }`. -/
structure BoundingBox where
  min_x : ℚ
  min_y : ℚ
  width : ℚ
  height : ℚ
  deriving DecidableEq, Repr

/-- `struct FlipRotation` (transform.rs:77-83). -/
structure FlipRotation where
  flip_h : Option ℕ := none
  flip_v : Option ℕ := none
  legacy_anchor_points : Option ℕ := none
  rotation : Option ℚ := none
  deriving DecidableEq, Repr

/-- `enum JustifyX` (diagram/text_format.rs). -/
inductive JustifyX where
  | Left | Center | Right
  deriving DecidableEq, Repr

/-- `enum JustifyY` (diagram/text_format.rs). -/
inductive JustifyY where
  | Top | Middle | Bottom
  deriving DecidableEq, Repr

/-- `struct Justify { x, y }` (diagram/text_format.rs). -/
structure Justify where
  x : JustifyX
  y : JustifyY
  deriving DecidableEq, Repr

/-- The error variant produced by the transform engine
(`DrawrsError::UnsupportedOrient`); it is the only error constructor any
function of `transform.rs` can return. -/
inductive DrawrsError where
  | UnsupportedOrient (o : Orient)
  deriving DecidableEq, Repr

/-- `struct GroupTransform` (transform.rs:68-75). -/
structure GroupTransform where
  origin_bounding_box : BoundingBox
  offset_x : ℚ
  offset_y : ℚ
  orient : Orient
  inst_name : String
  cell_name : String

/-- `GroupTransform::update_text` (transform.rs:149-154): substitute the
instance-name token `[@cellName]` and then the cell-name token `cdsName()`. -/
def update_text (t : GroupTransform) (text : Option String) : Option String :=
  text.map fun s => (s.replace "[@cellName]" t.inst_name).replace "cdsName()" t.cell_name

/-- The per-point orientation `match` inside `update_points`
(transform.rs:163-179), before the offset is added. -/
def orientPoint (t : GroupTransform) (p : Point) : Except DrawrsError Point :=
  match t.orient with
  | .R0 => .ok p
  | .MY => .ok (-p.1, p.2)
  | .R90 => .ok (p.2, -p.1)
  | .R180 => .error (.UnsupportedOrient t.orient)
  | .R270 => .ok (-p.2, p.1)
  | .MX => .error (.UnsupportedOrient t.orient)
  | .MYR90 => .error (.UnsupportedOrient t.orient)
  | .MXR90 => .error (.UnsupportedOrient t.orient)

/-- `GroupTransform::update_points` (transform.rs:158-184): for every point,
apply the orientation transform (failing fast on an unsupported orientation),
then unconditionally add the placement offset to both coordinates. -/
def update_points (t : GroupTransform) : List Point → Except DrawrsError (List Point)
  | [] => .ok []
  | p :: ps => do
    let q ← orientPoint t p
    let rest ← update_points t ps
    .ok ((q.1 + t.offset_x, q.2 + t.offset_y) :: rest)

/-- `GroupTransform::update_box` (transform.rs:188-227): rewrite `min_x`/`min_y`
per orientation (recording a rotation angle for R90/R270), keep
`width`/`height`, then add the offset to both mins. -/
def update_box (t : GroupTransform) :
    Option (BoundingBox × FlipRotation) →
      Except DrawrsError (Option (BoundingBox × FlipRotation))
  | none => .ok none
  | some (bbox, fr) => do
    let r ←
      (match t.orient with
      | .R0 => .ok (bbox, fr)
      | .R90 => .ok
          ({ bbox with
              min_x := bbox.min_y - (bbox.width - bbox.height) / 2,
              min_y := -bbox.min_x - bbox.width / 2 - bbox.height / 2 },
            { fr with rotation := some (-90) })
      | .R180 => .error (.UnsupportedOrient t.orient)
      | .R270 => .ok
          ({ bbox with
              min_x := -bbox.min_y - (bbox.width + bbox.height) / 2,
              min_y := bbox.min_x + bbox.width / 2 - bbox.height / 2 },
            { fr with rotation := some 90 })
      | .MY => .ok ({ bbox with min_x := -(bbox.min_x + bbox.width) }, fr)
      | .MX => .error (.UnsupportedOrient t.orient)
      | .MYR90 => .error (.UnsupportedOrient t.orient)
      | .MXR90 => .error (.UnsupportedOrient t.orient) :
        Except DrawrsError (BoundingBox × FlipRotation))
    .ok (some ({ r.1 with min_x := r.1.min_x + t.offset_x,
                          min_y := r.1.min_y + t.offset_y }, r.2))

/-- `GroupTransform::update_justify` (transform.rs:229-262): MY swaps
Left and Right X-justification; R0/R90/R270 leave justification unchanged;
the four unsupported orientations fail. -/
def update_justify (t : GroupTransform) :
    Option Justify → Except DrawrsError (Option Justify)
  | none => .ok none
  | some j =>
    match t.orient with
    | .R0 => .ok (some j)
    | .R90 => .ok (some j)
    | .R180 => .error (.UnsupportedOrient t.orient)
    | .R270 => .ok (some j)
    | .MY => .ok (some { j with
        x := match j.x with
          | .Left => .Right
          | .Center => .Center
          | .Right => .Left })
    | .MX => .error (.UnsupportedOrient t.orient)
    | .MYR90 => .error (.UnsupportedOrient t.orient)
    | .MXR90 => .error (.UnsupportedOrient t.orient)

/-- Rust's `str::starts_with`, modelled on the underlying character list (the
two agree; the list form evaluates in the kernel). -/
def strStartsWith (s pre : String) : Bool := pre.data.isPrefixOf s.data

/-- A rendered graphic object (`enum DiagramObject` in page.rs, flattened to the
components touched by `GroupTransform::new_obj`): the `XMLBase` fields `id`,
`value` (text), `tag`, `xml_parent`, plus the geometry accessed through
`mut_points` (empty for `XmlBase`), `mut_box` (`None` for `XmlBase`/`Edge`) and
`justify_mut` (`None` except for `Object`). -/
structure DiagramObject where
  id : String
  value : Option String := none
  tag : Option String := none
  xml_parent : Option String := none
  points : List Point := []
  box : Option (BoundingBox × FlipRotation) := none
  justify : Option Justify := none
  deriving DecidableEq, Repr

/-- `GroupTransform::new_obj` (transform.rs:263-277): clone the object, rename
it to `"{inst_name}-{id}"`, substitute text placeholders, tag it with the
instance name, and — only when its parent reference starts with `"layer-"` —
run the point, box and justification transforms, failing fast. -/
def new_obj (t : GroupTransform) (obj : DiagramObject) : Except DrawrsError DiagramObject :=
  let o1 : DiagramObject := { obj with
    id := t.inst_name ++ "-" ++ obj.id,
    value := update_text t obj.value,
    tag := some t.inst_name }
  match o1.xml_parent with
  | some parent =>
    if strStartsWith parent "layer-" then do
      let pts ← update_points t o1.points
      let bb ← update_box t o1.box
      let j ← update_justify t o1.justify
      .ok { o1 with points := pts, box := bb, justify := j }
    else .ok o1
  | none => .ok o1

/-- The per-instance object loop of `Renderer::render_schematic_file`
(renderer.rs:912-915): `for obj in objects { page.add_object(t.new_obj(obj)?) }`
— every clone is transformed, and the first error aborts the whole
instantiation. -/
def instantiate_objects (t : GroupTransform) :
    List DiagramObject → Except DrawrsError (List DiagramObject)
  | [] => .ok []
  | o :: os => do
    let r ← new_obj t o
    let rest ← instantiate_objects t os
    .ok (r :: rest)

/-! ## `drawckt/src/renderer.rs`: layer-order validation -/

/-- `enum Layer` (schematic.rs:11-18). -/
inductive Layer where
  | Instance | Annotate | Pin | Device | Wire | Text
  deriving DecidableEq, Repr

/-- The error variant raised by `init_layers` (`DrawcktError::RepeatLayer`). -/
inductive DrawcktError where
  | RepeatLayer (l : Layer)
  deriving DecidableEq, Repr

/-- The six seen-flags of `Renderer::init_layers` (renderer.rs:274-279);
`instance` is a Lean keyword, hence the field name `inst`. -/
structure SeenLayers where
  inst : Bool := false
  annotate : Bool := false
  pin : Bool := false
  device : Bool := false
  wire : Bool := false
  text : Bool := false
  deriving DecidableEq, Repr

/-- Read the seen-flag of a layer. -/
def seenLayer (s : SeenLayers) : Layer → Bool
  | .Instance => s.inst
  | .Annotate => s.annotate
  | .Pin => s.pin
  | .Device => s.device
  | .Wire => s.wire
  | .Text => s.text

/-- Set the seen-flag of a layer. -/
def markLayer (s : SeenLayers) : Layer → SeenLayers
  | .Instance => { s with inst := true }
  | .Annotate => { s with annotate := true }
  | .Pin => { s with pin := true }
  | .Device => { s with device := true }
  | .Wire => { s with wire := true }
  | .Text => { s with text := true }

/-- The validation loop of `Renderer::init_layers` (renderer.rs:280-318): walk
the layers, erroring with `RepeatLayer` on a layer whose flag is already set.
(The page-cell creation the Rust loop interleaves has no bearing on the
validation result and is omitted.) -/
def init_layers_go : SeenLayers → List Layer → Except DrawcktError Unit
  | _, [] => .ok ()
  | s, l :: rest =>
    if seenLayer s l then .error (.RepeatLayer l)
    else init_layers_go (markLayer s l) rest

/-- `Renderer::init_layers` validation: the Rust loop iterates
`style.layer_order.iter().rev()` with all six flags initially false. -/
def init_layers (layer_order : List Layer) : Except DrawcktError Unit :=
  init_layers_go {} layer_order.reverse

/-! ## `drawckt/src/renderer.rs`: `Renderer::merge_lines` (renderer.rs:381-529)

The Rust function mutates `current_line`, a `processed` bit-vector and a
`merged` accumulator inside three nested loops.  The embedding passes that
state explicitly: `tryMergeJ` is one iteration of the inner `for j` loop,
`mergeRound` is one pass of that loop over all indices, `mergeLoopF` is the
`loop { ... }` (with fuel: each flagged round marks at least one new line
processed, so `countFalse processed + 1` rounds always reach the fixpoint —
`mergeLoopF_fix` below proves the returned state is a no-merge fixpoint), and
`mergeOuter` is the outer `for i` loop. -/

/-- Does line `l` touch point `p` at either endpoint?  Mirrors the
`!points.is_empty() && (start == shared || end == shared)` tests used in the
connection count (renderer.rs:459-464, 470-474). -/
def touches (p : Point) (l : Line) : Bool :=
  !l.isEmpty && (decide (l.headD (0, 0) = p) || decide (l.getLastD (0, 0) = p))

/-- The `connection_count` computation (renderer.rs:451-477): the number of
unprocessed lines other than `i` and `j` touching `p`, plus the number of
already-finalized merged chains touching `p`. -/
def connCount (lines : List Line) (processed : List Bool) (merged : List Line)
    (i j : ℕ) (p : Point) : ℕ :=
  (List.range lines.length).countP
      (fun k => !decide (k = i) && !decide (k = j) &&
        !processed.getD k true && touches p (lines.getD k [])) +
    merged.countP (fun m => touches p m)

/-- The four endpoint-sharing tests (renderer.rs:425-433):
start-start, start-end, end-start, end-end. -/
def sharesEndpoint (cur other : Line) : Prop :=
  cur.headD (0, 0) = other.headD (0, 0) ∨ cur.headD (0, 0) = other.getLastD (0, 0) ∨
    cur.getLastD (0, 0) = other.headD (0, 0) ∨ cur.getLastD (0, 0) = other.getLastD (0, 0)

instance (cur other : Line) : Decidable (sharesEndpoint cur other) := by
  unfold sharesEndpoint; infer_instance

/-- The shared-point selection (renderer.rs:436-444), with the same priority
as the `if`/`else if` chain: start-start and start-end give the current start,
end-start and end-end give the current end. -/
def sharedPoint (cur other : Line) : Point :=
  if cur.headD (0, 0) = other.headD (0, 0) then cur.headD (0, 0)
  else if cur.headD (0, 0) = other.getLastD (0, 0) then cur.headD (0, 0)
  else if cur.getLastD (0, 0) = other.headD (0, 0) then cur.getLastD (0, 0)
  else cur.getLastD (0, 0)

/-- The fuse step (renderer.rs:482-508), with the same branch priority:
* start-start: reverse current, pop the duplicate, append other;
* start-end:   pop other's last (the duplicate), reverse it, append current;
* end-start:   pop current's last (the duplicate), append other;
* end-end:     pop current's last (the duplicate), append reversed other.
The final no-share branch (unreachable under the guard) keeps `cur`. -/
def fuseLines (cur other : Line) : Line :=
  if cur.headD (0, 0) = other.headD (0, 0) then cur.reverse.dropLast ++ other
  else if cur.headD (0, 0) = other.getLastD (0, 0) then other.dropLast.reverse ++ cur
  else if cur.getLastD (0, 0) = other.headD (0, 0) then cur.dropLast ++ other
  else if cur.getLastD (0, 0) = other.getLastD (0, 0) then cur.dropLast ++ other.reverse
  else cur

/-- The state threaded through one round of the inner `for j` loop:
the chain being extended, the processed flags, and `merged_this_round`. -/
structure MState where
  current : Line
  processed : List Bool
  flag : Bool
  deriving DecidableEq, Repr

/-- One iteration of the inner `for j` loop (renderer.rs:408-516): skip `j` if
it is `i`, already processed, or empty; otherwise, if the chain shares an
endpoint with line `j` and no other line or finalized chain touches the shared
point, fuse and mark `j` processed. -/
def tryMergeJ (lines merged : List Line) (i : ℕ) (st : MState) (j : ℕ) : MState :=
  if j = i ∨ st.processed.getD j true then st
  else if (lines.getD j []).isEmpty then st
  else if sharesEndpoint st.current (lines.getD j []) then
    if connCount lines st.processed merged i j
        (sharedPoint st.current (lines.getD j [])) = 0 then
      { current := fuseLines st.current (lines.getD j []),
        processed := st.processed.set j true,
        flag := true }
    else st
  else st

/-- One full pass of the inner `for j in 0..lines.len()` loop, starting with
`merged_this_round = false`. -/
def mergeRound (lines merged : List Line) (i : ℕ) (cur : Line)
    (processed : List Bool) : MState :=
  (List.range lines.length).foldl (tryMergeJ lines merged i) ⟨cur, processed, false⟩

/-- The number of unprocessed lines; the termination measure of the `loop`. -/
def countFalse (processed : List Bool) : ℕ := processed.countP (fun b => !b)

/-- The `loop { ... if !merged_this_round { break } }` (renderer.rs:404-522),
written with explicit fuel (each flagged round strictly decreases
`countFalse`, see `countFalse_mergeRound_lt`). -/
def mergeLoopF (lines merged : List Line) (i : ℕ) :
    ℕ → Line → List Bool → Line × List Bool
  | 0, cur, processed => (cur, processed)
  | fuel + 1, cur, processed =>
    let st := mergeRound lines merged i cur processed
    if st.flag then mergeLoopF lines merged i fuel st.current st.processed
    else (st.current, st.processed)

/-- The inner loop with adequate fuel: `countFalse processed + 1` rounds always
reach the no-merge round at which the Rust loop breaks. -/
def mergeInner (lines merged : List Line) (i : ℕ) (cur : Line)
    (processed : List Bool) : Line × List Bool :=
  mergeLoopF lines merged i (countFalse processed + 1) cur processed

/-- The outer `for i in 0..lines.len()` loop (renderer.rs:391-526): skip
processed lines, mark-and-drop empty ones, otherwise extend line `i` by the
inner loop, push the resulting chain and mark `i` processed. -/
def mergeOuter (lines : List Line) : List ℕ → List Bool → List Line → List Line
  | [], _, merged => merged
  | i :: rest, processed, merged =>
    if processed.getD i true then mergeOuter lines rest processed merged
    else
      let cur := lines.getD i []
      if cur.isEmpty then mergeOuter lines rest (processed.set i true) merged
      else
        let r := mergeInner lines merged i cur processed
        mergeOuter lines rest (r.2.set i true) (merged ++ [r.1])

/-- `Renderer::merge_lines` (renderer.rs:381-529). -/
def merge_lines (lines : List Line) : List Line :=
  if lines.isEmpty then []
  else mergeOuter lines (List.range lines.length) (List.replicate lines.length false) []

/-! ## Auxiliary definitions used only to state and prove the claims -/

/-- The seen-flags after marking every layer of `acc`, in order. -/
def markList (acc : List Layer) : SeenLayers := acc.foldl markLayer {}

/-- `q` occurs as a point of some polyline of `ls`. -/
def memPts (q : Point) (ls : List Line) : Prop := ∃ l, l ∈ ls ∧ q ∈ l

/-! # Theorems -/

/-! ## Transform engine: per-point and per-box formulas (C6, C7) -/

theorem update_points_ok_map (t : GroupTransform) (f : Point → Point)
    (h : ∀ p, orientPoint t p = .ok (f p)) :
    ∀ ps : List Point,
      update_points t ps =
        .ok (ps.map fun p => ((f p).1 + t.offset_x, (f p).2 + t.offset_y))
  | [] => rfl
  | p :: ps => by
    rw [List.map_cons, update_points, h p, update_points_ok_map t f h ps]
    rfl

/-- Claim C6: for every point and offset, the per-point transform leaves the
point unchanged under R0, maps it to `(-x, y)` under MY, `(y, -x)` under R90
and `(-y, x)` under R270, and in every supported case then adds the offset to
both coordinates. -/
theorem update_points_per_point (t : GroupTransform) (ps : List Point) :
    (t.orient = .R0 →
      update_points t ps = .ok (ps.map fun p => (p.1 + t.offset_x, p.2 + t.offset_y))) ∧
    (t.orient = .MY →
      update_points t ps = .ok (ps.map fun p => (-p.1 + t.offset_x, p.2 + t.offset_y))) ∧
    (t.orient = .R90 →
      update_points t ps = .ok (ps.map fun p => (p.2 + t.offset_x, -p.1 + t.offset_y))) ∧
    (t.orient = .R270 →
      update_points t ps = .ok (ps.map fun p => (-p.2 + t.offset_x, p.1 + t.offset_y))) := by
  refine ⟨fun h => ?_, fun h => ?_, fun h => ?_, fun h => ?_⟩
  · exact update_points_ok_map t (fun p => (p.1, p.2)) (fun p => by simp [orientPoint, h]) ps
  · exact update_points_ok_map t (fun p => (-p.1, p.2)) (fun p => by simp [orientPoint, h]) ps
  · exact update_points_ok_map t (fun p => (p.2, -p.1)) (fun p => by simp [orientPoint, h]) ps
  · exact update_points_ok_map t (fun p => (-p.2, p.1)) (fun p => by simp [orientPoint, h]) ps

theorem update_points_per_point_witness :
    update_points ⟨⟨0, 0, 0, 0⟩, 10, 20, .R0, "U", "c"⟩ [(1, 2)] = .ok [(1 + 10, 2 + 20)] ∧
    update_points ⟨⟨0, 0, 0, 0⟩, 10, 20, .MY, "U", "c"⟩ [(1, 2)] = .ok [(-1 + 10, 2 + 20)] ∧
    update_points ⟨⟨0, 0, 0, 0⟩, 10, 20, .R90, "U", "c"⟩ [(1, 2)] = .ok [(2 + 10, -1 + 20)] ∧
    update_points ⟨⟨0, 0, 0, 0⟩, 10, 20, .R270, "U", "c"⟩ [(1, 2)] = .ok [(-2 + 10, 1 + 20)] :=
  ⟨(update_points_per_point ⟨⟨0, 0, 0, 0⟩, 10, 20, .R0, "U", "c"⟩ [(1, 2)]).1 rfl,
    ((update_points_per_point ⟨⟨0, 0, 0, 0⟩, 10, 20, .MY, "U", "c"⟩ [(1, 2)]).2.1 rfl),
    ((update_points_per_point ⟨⟨0, 0, 0, 0⟩, 10, 20, .R90, "U", "c"⟩ [(1, 2)]).2.2.1 rfl),
    ((update_points_per_point ⟨⟨0, 0, 0, 0⟩, 10, 20, .R270, "U", "c"⟩ [(1, 2)]).2.2.2 rfl)⟩

/-- Claim C7: for every bounding box and supported orientation, the box
transform keeps `width`/`height` and rewrites only the mins: R0 leaves them,
MY reflects `min_x`, R90 uses `min_y - (w-h)/2` and `-min_x - w/2 - h/2` and
records rotation `-90`, R270 uses `-min_y - (w+h)/2` and `min_x + w/2 - h/2`
and records rotation `+90`; the offset is then added to both mins. -/
theorem update_box_per_box (t : GroupTransform) (b : BoundingBox) (fr : FlipRotation) :
    (t.orient = .R0 →
      update_box t (some (b, fr)) =
        .ok (some ({ b with min_x := b.min_x + t.offset_x,
                            min_y := b.min_y + t.offset_y }, fr))) ∧
    (t.orient = .MY →
      update_box t (some (b, fr)) =
        .ok (some ({ b with min_x := -(b.min_x + b.width) + t.offset_x,
                            min_y := b.min_y + t.offset_y }, fr))) ∧
    (t.orient = .R90 →
      update_box t (some (b, fr)) =
        .ok (some ({ b with
            min_x := b.min_y - (b.width - b.height) / 2 + t.offset_x,
            min_y := -b.min_x - b.width / 2 - b.height / 2 + t.offset_y },
          { fr with rotation := some (-90) }))) ∧
    (t.orient = .R270 →
      update_box t (some (b, fr)) =
        .ok (some ({ b with
            min_x := -b.min_y - (b.width + b.height) / 2 + t.offset_x,
            min_y := b.min_x + b.width / 2 - b.height / 2 + t.offset_y },
          { fr with rotation := some 90 }))) := by
  refine ⟨fun h => ?_, fun h => ?_, fun h => ?_, fun h => ?_⟩ <;>
    (simp only [update_box, h]; rfl)

/-! ## Layer-order validation (C9) -/

theorem seenLayer_default (l : Layer) : seenLayer {} l = false := by
  cases l <;> rfl

theorem seenLayer_markLayer (s : SeenLayers) (l l' : Layer) :
    seenLayer (markLayer s l') l = (seenLayer s l || decide (l = l')) := by
  cases l <;> cases l' <;> simp [seenLayer, markLayer]

theorem seenLayer_foldl (acc : List Layer) :
    ∀ (s : SeenLayers) (l : Layer),
      seenLayer (acc.foldl markLayer s) l = (seenLayer s l || decide (l ∈ acc)) := by
  induction acc with
  | nil => simp
  | cons a t ih =>
    intro s l
    simp only [List.foldl_cons, ih, seenLayer_markLayer, List.mem_cons]
    by_cases h1 : l = a <;> simp [h1]

theorem seenLayer_markList (acc : List Layer) (l : Layer) :
    seenLayer (markList acc) l = decide (l ∈ acc) := by
  simp [markList, seenLayer_foldl, seenLayer_default]

theorem markList_append (acc : List Layer) (l : Layer) :
    markList (acc ++ [l]) = markLayer (markList acc) l := by
  simp [markList, List.foldl_append]

theorem init_go_ok (ls : List Layer) :
    ∀ acc : List Layer, (acc ++ ls).Nodup → init_layers_go (markList acc) ls = .ok () := by
  induction ls with
  | nil => intro acc _; rfl
  | cons l t ih =>
    intro acc h
    have hl : l ∉ acc := by
      intro hmem
      exact (List.disjoint_of_nodup_append h) hmem (by simp)
    rw [init_layers_go, seenLayer_markList]
    simp only [hl, decide_eq_false_iff_not.mpr hl, Bool.false_eq_true, if_false,
      ← markList_append]
    exact ih (acc ++ [l]) (by simpa using h)

theorem init_go_err (ls : List Layer) :
    ∀ acc : List Layer, ¬ (acc ++ ls).Nodup → acc.Nodup →
      ∃ l, init_layers_go (markList acc) ls = .error (.RepeatLayer l) ∧
        2 ≤ (acc ++ ls).count l := by
  induction ls with
  | nil => intro acc h hacc; simp at h; exact absurd hacc h
  | cons l t ih =>
    intro acc h hacc
    by_cases hmem : l ∈ acc
    · refine ⟨l, ?_, ?_⟩
      · rw [init_layers_go, seenLayer_markList]
        simp [hmem]
      · have h1 : 1 ≤ acc.count l := List.one_le_count_iff.mpr hmem
        have h2 : (acc ++ l :: t).count l = acc.count l + (l :: t).count l := by
          simp [List.count_append]
        simp only [h2]
        have : 1 ≤ (l :: t).count l := by simp [List.count_cons]
        omega
    · rw [init_layers_go, seenLayer_markList]
      simp only [hmem, decide_eq_false_iff_not.mpr hmem, Bool.false_eq_true, if_false,
        ← markList_append]
      have hrec := ih (acc ++ [l])
        (by simpa using h)
        (by simp [List.nodup_append, hacc, hmem])
      obtain ⟨l', herr, hcount⟩ := hrec
      exact ⟨l', herr, by simpa using hcount⟩

/-- Claim C9: a `layer_order` containing some layer more than once makes
`init_layers` fail with `RepeatLayer` naming a duplicated layer, while a true
permutation of the six layers succeeds. -/
theorem init_layers_valid :
    (∀ lo : List Layer, ¬ lo.Nodup →
      ∃ l, init_layers lo = .error (.RepeatLayer l) ∧ 2 ≤ lo.count l) ∧
    (∀ lo : List Layer,
      lo.Perm [Layer.Instance, .Annotate, .Pin, .Device, .Wire, .Text] →
      init_layers lo = .ok ()) := by
  constructor
  · intro lo h
    have h1 : ¬ (([] : List Layer) ++ lo.reverse).Nodup := by
      simpa [List.nodup_reverse] using h
    obtain ⟨l, herr, hcount⟩ := init_go_err lo.reverse [] h1 List.nodup_nil
    refine ⟨l, ?_, ?_⟩
    · simpa [init_layers, markList] using herr
    · simpa [List.count_reverse] using hcount
  · intro lo h
    have hnd : lo.Nodup := h.nodup_iff.mpr (by decide)
    have := init_go_ok lo.reverse [] (by simpa [List.nodup_reverse] using hnd)
    simpa [init_layers, markList] using this

theorem init_layers_valid_witness :
    (∃ l, init_layers [Layer.Wire, .Wire, .Pin, .Instance, .Device, .Text] =
        .error (.RepeatLayer l) ∧
      2 ≤ ([Layer.Wire, .Wire, .Pin, .Instance, .Device, .Text].count l)) ∧
    init_layers [Layer.Instance, .Annotate, .Pin, .Device, .Wire, .Text] = .ok () :=
  ⟨init_layers_valid.1 [Layer.Wire, .Wire, .Pin, .Instance, .Device, .Text] (by decide),
    init_layers_valid.2 [Layer.Instance, .Annotate, .Pin, .Device, .Wire, .Text]
      (List.Perm.refl _)⟩

theorem update_box_per_box_witness :
    update_box ⟨⟨0, 0, 0, 0⟩, 10, 20, .R90, "U", "c"⟩
        (some (⟨1, 2, 6, 4⟩, {})) =
      .ok (some (⟨2 - (6 - 4) / 2 + 10, -1 - 6 / 2 - 4 / 2 + 20, 6, 4⟩,
        { rotation := some (-90) })) :=
  (update_box_per_box ⟨⟨0, 0, 0, 0⟩, 10, 20, .R90, "U", "c"⟩ ⟨1, 2, 6, 4⟩ {}).2.2.1 rfl

/-! ## Unsupported orientations and instantiation (C5, C8, C10) -/

theorem orientPoint_unsupported (t : GroupTransform) (p : Point)
    (hor : t.orient = .R180 ∨ t.orient = .MX ∨ t.orient = .MYR90 ∨ t.orient = .MXR90) :
    orientPoint t p = .error (.UnsupportedOrient t.orient) := by
  rcases hor with h | h | h | h <;> simp [orientPoint, h]

theorem orientPoint_error (t : GroupTransform) (p : Point) (e : DrawrsError)
    (h : orientPoint t p = .error e) : e = .UnsupportedOrient t.orient := by
  unfold orientPoint at h
  cases ht : t.orient <;> rw [ht] at h
  case R0 => exact absurd h (by simp)
  case R90 => exact absurd h (by simp)
  case R270 => exact absurd h (by simp)
  case MY => exact absurd h (by simp)
  all_goals (injection h with h2; exact h2.symm)

theorem update_points_error (t : GroupTransform) :
    ∀ (ps : List Point) (e : DrawrsError),
      update_points t ps = .error e → e = .UnsupportedOrient t.orient := by
  intro ps
  induction ps with
  | nil => intro e h; exact absurd h (by simp [update_points])
  | cons p ps ih =>
    intro e h
    rw [update_points] at h
    cases hq : orientPoint t p with
    | error e' =>
      rw [hq] at h
      injection h with h2
      exact h2 ▸ orientPoint_error t p e' hq
    | ok q =>
      rw [hq] at h
      cases hr : update_points t ps with
      | error e' =>
        rw [hr] at h
        injection h with h2
        exact h2 ▸ ih e' hr
      | ok rest =>
        rw [hr] at h
        injection h

theorem update_box_error (t : GroupTransform) :
    ∀ (bb : Option (BoundingBox × FlipRotation)) (e : DrawrsError),
      update_box t bb = .error e → e = .UnsupportedOrient t.orient := by
  intro bb e h
  cases bb with
  | none => exact absurd h (by simp [update_box])
  | some v =>
    obtain ⟨b, fr⟩ := v
    simp only [update_box] at h
    cases ht : t.orient <;> rw [ht] at h
    case R0 => injection h
    case R90 => injection h
    case R270 => injection h
    case MY => injection h
    all_goals (injection h with h2; exact h2.symm)

theorem update_justify_error (t : GroupTransform) :
    ∀ (j : Option Justify) (e : DrawrsError),
      update_justify t j = .error e → e = .UnsupportedOrient t.orient := by
  intro j e h
  cases j with
  | none => exact absurd h (by simp [update_justify])
  | some v =>
    simp only [update_justify] at h
    cases ht : t.orient <;> rw [ht] at h
    case R0 => injection h
    case R90 => injection h
    case R270 => injection h
    case MY => injection h
    all_goals (injection h with h2; exact h2.symm)

theorem new_obj_ok_id (t : GroupTransform) (obj r : DiagramObject)
    (h : new_obj t obj = .ok r) : r.id = t.inst_name ++ "-" ++ obj.id := by
  rw [new_obj] at h
  cases hp : obj.xml_parent with
  | none => simp only [hp] at h; cases h; rfl
  | some parent =>
    simp only [hp] at h
    by_cases hs : strStartsWith parent "layer-"
    · simp only [hs, if_true] at h
      cases hpts : update_points t obj.points with
      | error e => rw [hpts] at h; injection h
      | ok pts =>
        rw [hpts] at h
        cases hbb : update_box t obj.box with
        | error e => rw [hbb] at h; injection h
        | ok bb =>
          rw [hbb] at h
          cases hj : update_justify t obj.justify with
          | error e => rw [hj] at h; injection h
          | ok j =>
            rw [hj] at h
            injection h with h2
            rw [← h2]
    · simp only [hs, if_false] at h; cases h; rfl

theorem new_obj_error_orient (t : GroupTransform) (obj : DiagramObject) (e : DrawrsError)
    (h : new_obj t obj = .error e) : e = .UnsupportedOrient t.orient := by
  rw [new_obj] at h
  cases hp : obj.xml_parent with
  | none => simp [hp] at h
  | some parent =>
    simp only [hp] at h
    by_cases hs : strStartsWith parent "layer-"
    · simp only [hs, if_true] at h
      cases hpts : update_points t obj.points with
      | error e' =>
        rw [hpts] at h
        injection h with h2
        exact h2 ▸ update_points_error t _ _ hpts
      | ok pts =>
        rw [hpts] at h
        cases hbb : update_box t obj.box with
        | error e' =>
          rw [hbb] at h
          injection h with h2
          exact h2 ▸ update_box_error t _ _ hbb
        | ok bb =>
          rw [hbb] at h
          cases hj : update_justify t obj.justify with
          | error e' =>
            rw [hj] at h
            injection h with h2
            exact h2 ▸ update_justify_error t _ _ hj
          | ok j => rw [hj] at h; injection h
    · simp only [hs, if_false] at h; injection h

theorem instantiate_objects_error (t : GroupTransform) :
    ∀ (objs : List DiagramObject) (obj : DiagramObject), obj ∈ objs →
      new_obj t obj = .error (.UnsupportedOrient t.orient) →
      instantiate_objects t objs = .error (.UnsupportedOrient t.orient) := by
  intro objs
  induction objs with
  | nil => intro obj h; exact absurd h (List.not_mem_nil obj)
  | cons o os ih =>
    intro obj hmem herr
    rw [instantiate_objects]
    rcases List.mem_cons.mp hmem with rfl | hmem'
    · rw [herr]; rfl
    · cases hnew : new_obj t o with
      | error e =>
        have := new_obj_error_orient t o e hnew
        subst this
        rfl
      | ok r =>
        rw [ih obj hmem' herr]
        rfl

/-- Claim C5: each of the three transforms rejects the four unsupported
orientations with `UnsupportedOrient` carrying the very orientation (never a
silently transformed value), all three succeed for the four supported ones,
and for a layer-bound object with anything to transform the failure makes the
whole instantiation loop fail. -/
theorem unsupported_orient_rejected :
    (∀ t : GroupTransform,
      (t.orient = .R180 ∨ t.orient = .MX ∨ t.orient = .MYR90 ∨ t.orient = .MXR90) →
      (∀ (p : Point) (ps : List Point),
        update_points t (p :: ps) = .error (.UnsupportedOrient t.orient)) ∧
      (∀ bb : BoundingBox × FlipRotation,
        update_box t (some bb) = .error (.UnsupportedOrient t.orient)) ∧
      (∀ j : Justify, update_justify t (some j) = .error (.UnsupportedOrient t.orient)) ∧
      (∀ (obj : DiagramObject) (parent : String), obj.xml_parent = some parent →
        strStartsWith parent "layer-" = true →
        (obj.points ≠ [] ∨ obj.box ≠ none ∨ obj.justify ≠ none) →
        new_obj t obj = .error (.UnsupportedOrient t.orient)) ∧
      (∀ (objs : List DiagramObject) (obj : DiagramObject) (parent : String), obj ∈ objs →
        obj.xml_parent = some parent → strStartsWith parent "layer-" = true →
        (obj.points ≠ [] ∨ obj.box ≠ none ∨ obj.justify ≠ none) →
        instantiate_objects t objs = .error (.UnsupportedOrient t.orient))) ∧
    (∀ t : GroupTransform,
      (t.orient = .R0 ∨ t.orient = .R90 ∨ t.orient = .R270 ∨ t.orient = .MY) →
      (∀ ps : List Point, ∃ qs, update_points t ps = .ok qs) ∧
      (∀ bb : Option (BoundingBox × FlipRotation), ∃ r, update_box t bb = .ok r) ∧
      (∀ j : Option Justify, ∃ r, update_justify t j = .ok r)) := by
  constructor
  · intro t hor
    have hpts : ∀ (p : Point) (ps : List Point),
        update_points t (p :: ps) = .error (.UnsupportedOrient t.orient) := by
      intro p ps
      rw [update_points, orientPoint_unsupported t p hor]
      rfl
    have hbox : ∀ bb : BoundingBox × FlipRotation,
        update_box t (some bb) = .error (.UnsupportedOrient t.orient) := by
      intro ⟨b, fr⟩
      rcases hor with h | h | h | h <;> (rw [update_box]; rw [h]; rfl)
    have hjst : ∀ j : Justify,
        update_justify t (some j) = .error (.UnsupportedOrient t.orient) := by
      intro j
      rcases hor with h | h | h | h <;> (rw [update_justify]; rw [h])
    have hobj : ∀ (obj : DiagramObject) (parent : String), obj.xml_parent = some parent →
        strStartsWith parent "layer-" = true →
        (obj.points ≠ [] ∨ obj.box ≠ none ∨ obj.justify ≠ none) →
        new_obj t obj = .error (.UnsupportedOrient t.orient) := by
      intro obj parent hp hs hcontent
      rw [new_obj]
      simp only [hp, hs, if_true]
      rcases hcontent with hne | hne | hne
      · obtain ⟨p, ps, hcons⟩ : ∃ p ps, obj.points = p :: ps := by
          cases hclist : obj.points with
          | nil => exact absurd hclist hne
          | cons p ps => exact ⟨p, ps, rfl⟩
        rw [hcons, hpts]
        rfl
      · cases hpv : update_points t obj.points with
        | error e =>
          rw [update_points_error t _ _ hpv]
          rfl
        | ok pts =>
          obtain ⟨bb, hbb⟩ : ∃ bb, obj.box = some bb := by
            cases hb : obj.box with
            | none => exact absurd hb hne
            | some bb => exact ⟨bb, rfl⟩
          rw [hbb, hbox]
          rfl
      · cases hpv : update_points t obj.points with
        | error e =>
          rw [update_points_error t _ _ hpv]
          rfl
        | ok pts =>
          cases hbv : update_box t obj.box with
          | error e =>
            rw [update_box_error t _ _ hbv]
            rfl
          | ok bb =>
            obtain ⟨j, hj⟩ : ∃ j, obj.justify = some j := by
              cases hjv : obj.justify with
              | none => exact absurd hjv hne
              | some j => exact ⟨j, rfl⟩
            rw [hj, hjst]
            rfl
    refine ⟨hpts, hbox, hjst, hobj, ?_⟩
    intro objs obj parent hmem hp hs hcontent
    exact instantiate_objects_error t objs obj hmem (hobj obj parent hp hs hcontent)
  · intro t hor
    have hpt : ∀ p : Point, ∃ q, orientPoint t p = .ok q := by
      intro p
      rcases hor with h | h | h | h
      · exact ⟨p, by unfold orientPoint; rw [h]⟩
      · exact ⟨(p.2, -p.1), by unfold orientPoint; rw [h]⟩
      · exact ⟨(-p.2, p.1), by unfold orientPoint; rw [h]⟩
      · exact ⟨(-p.1, p.2), by unfold orientPoint; rw [h]⟩
    refine ⟨?_, ?_, ?_⟩
    · intro ps
      induction ps with
      | nil => exact ⟨[], rfl⟩
      | cons p ps ih =>
        obtain ⟨q, hq⟩ := hpt p
        obtain ⟨qs, hqs⟩ := ih
        exact ⟨_, by rw [update_points, hq, hqs]; rfl⟩
    · intro bb
      cases bb with
      | none => exact ⟨none, rfl⟩
      | some v =>
        obtain ⟨b, fr⟩ := v
        rcases hor with h | h | h | h <;> exact ⟨_, by rw [update_box, h]; rfl⟩
    · intro j
      cases j with
      | none => exact ⟨none, rfl⟩
      | some v => rcases hor with h | h | h | h <;> exact ⟨_, by rw [update_justify, h]⟩

theorem unsupported_orient_rejected_witness :
    instantiate_objects ⟨⟨0, 0, 0, 0⟩, 0, 0, .R180, "U1", "c"⟩
        [{ id := "o", xml_parent := some "layer-wire-shape", points := [(1, 2)] }] =
      .error (.UnsupportedOrient .R180) ∧
    (∃ qs, update_points ⟨⟨0, 0, 0, 0⟩, 0, 0, .MY, "U1", "c"⟩ [(1, 2)] = .ok qs) :=
  ⟨(unsupported_orient_rejected.1 ⟨⟨0, 0, 0, 0⟩, 0, 0, .R180, "U1", "c"⟩ (by left; rfl)).2.2.2.2
      [{ id := "o", xml_parent := some "layer-wire-shape", points := [(1, 2)] }]
      { id := "o", xml_parent := some "layer-wire-shape", points := [(1, 2)] }
      "layer-wire-shape" (by simp) rfl (by decide) (by left; simp),
    ((unsupported_orient_rejected.2 ⟨⟨0, 0, 0, 0⟩, 0, 0, .MY, "U1", "c"⟩
      (by right; right; right; rfl)).1 [(1, 2)])⟩

theorem append_dash_cases :
    ∀ (a c b d : List Char), a ++ '-' :: b = c ++ '-' :: d →
      a = c ∨ (∃ s, c = a ++ '-' :: s) ∨ (∃ s, a = c ++ '-' :: s) := by
  intro a
  induction a with
  | nil =>
    intro c b d h
    cases c with
    | nil => exact Or.inl rfl
    | cons x c' =>
      rw [List.nil_append, List.cons_append] at h
      injection h with h1 h2
      exact Or.inr (Or.inl ⟨c', by rw [← h1]; rfl⟩)
  | cons y a' ih =>
    intro c b d h
    cases c with
    | nil =>
      rw [List.nil_append, List.cons_append] at h
      injection h with h1 h2
      exact Or.inr (Or.inr ⟨a', by rw [h1]; rfl⟩)
    | cons x c' =>
      rw [List.cons_append, List.cons_append] at h
      injection h with h1 h2
      rcases ih c' b d h2 with h3 | ⟨s, h3⟩ | ⟨s, h3⟩
      · exact Or.inl (by rw [h1, h3])
      · exact Or.inr (Or.inl ⟨s, by rw [h1, h3]; rfl⟩)
      · exact Or.inr (Or.inr ⟨s, by rw [← h1, h3]; rfl⟩)

/-- Claim C8: `new_obj` names every clone `"{instance_name}-{original_id}"`,
so two instantiations whose instance names are distinct (and neither is the
other followed by `'-'` and more text) can never produce a common object ID. -/
theorem instance_ids_disjoint :
    (∀ (t : GroupTransform) (obj r : DiagramObject),
      new_obj t obj = .ok r → r.id = t.inst_name ++ "-" ++ obj.id) ∧
    (∀ (t₁ t₂ : GroupTransform) (o₁ o₂ r₁ r₂ : DiagramObject),
      new_obj t₁ o₁ = .ok r₁ → new_obj t₂ o₂ = .ok r₂ →
      t₁.inst_name ≠ t₂.inst_name →
      (¬ ∃ s, t₂.inst_name.data = t₁.inst_name.data ++ '-' :: s) →
      (¬ ∃ s, t₁.inst_name.data = t₂.inst_name.data ++ '-' :: s) →
      r₁.id ≠ r₂.id) := by
  refine ⟨new_obj_ok_id, ?_⟩
  intro t₁ t₂ o₁ o₂ r₁ r₂ h₁ h₂ hne hp12 hp21 heq
  rw [new_obj_ok_id t₁ o₁ r₁ h₁, new_obj_ok_id t₂ o₂ r₂ h₂] at heq
  have hdata := congrArg String.data heq
  simp only [String.data_append] at hdata
  simp only [List.append_assoc, List.singleton_append] at hdata
  rcases append_dash_cases _ _ _ _ hdata with h3 | ⟨s, h3⟩ | ⟨s, h3⟩
  · exact hne (String.ext h3)
  · exact hp12 ⟨s, h3⟩
  · exact hp21 ⟨s, h3⟩

theorem instance_ids_disjoint_witness :
    new_obj ⟨⟨0, 0, 0, 0⟩, 0, 0, .R0, "U1", "c"⟩ { id := "x" } =
        .ok { id := "U1-x", tag := some "U1" } ∧
    new_obj ⟨⟨0, 0, 0, 0⟩, 0, 0, .R0, "U2", "c"⟩ { id := "x" } =
        .ok { id := "U2-x", tag := some "U2" } ∧
    ({ id := "U1-x", tag := some "U1" } : DiagramObject).id ≠
      ({ id := "U2-x", tag := some "U2" } : DiagramObject).id := by
  refine ⟨rfl, rfl, ?_⟩
  exact instance_ids_disjoint.2
    ⟨⟨0, 0, 0, 0⟩, 0, 0, .R0, "U1", "c"⟩ ⟨⟨0, 0, 0, 0⟩, 0, 0, .R0, "U2", "c"⟩
    { id := "x" } { id := "x" } { id := "U1-x", tag := some "U1" }
    { id := "U2-x", tag := some "U2" } rfl rfl (by decide)
    (by rintro ⟨s, hs⟩; simp at hs) (by rintro ⟨s, hs⟩; simp at hs)

/-- Claim C10: an object whose parent reference is absent or does not start
with `"layer-"` is cloned with points, bounding box, flip/rotation state and
justification untouched (no transform, no offset), while its ID is still
prefixed with the instance name, its tag set to the instance name, and the
`[@cellName]`/`cdsName()` placeholders substituted in its text. -/
theorem untransformed_outside_layers (t : GroupTransform) (obj : DiagramObject)
    (h : obj.xml_parent = none ∨
      ∃ parent, obj.xml_parent = some parent ∧ strStartsWith parent "layer-" = false) :
    new_obj t obj = .ok { obj with
      id := t.inst_name ++ "-" ++ obj.id,
      value := obj.value.map fun s =>
        (s.replace "[@cellName]" t.inst_name).replace "cdsName()" t.cell_name,
      tag := some t.inst_name } := by
  rw [new_obj]
  rcases h with hp | ⟨parent, hp, hs⟩
  · simp only [hp]
    rfl
  · simp only [hp, hs]
    rfl

theorem untransformed_outside_layers_witness :
    new_obj ⟨⟨0, 0, 0, 0⟩, 7, 9, .R180, "U1", "cell"⟩
        { id := "x", xml_parent := some "group-1", points := [(1, 2)],
          box := some (⟨1, 2, 3, 4⟩, {}), justify := some ⟨.Left, .Top⟩ } =
      .ok { id := "U1-x", tag := some "U1", xml_parent := some "group-1",
            points := [(1, 2)], box := some (⟨1, 2, 3, 4⟩, {}),
            justify := some ⟨.Left, .Top⟩ } :=
  untransformed_outside_layers ⟨⟨0, 0, 0, 0⟩, 7, 9, .R180, "U1", "cell"⟩
    { id := "x", xml_parent := some "group-1", points := [(1, 2)],
      box := some (⟨1, 2, 3, 4⟩, {}), justify := some ⟨.Left, .Top⟩ }
    (Or.inr ⟨"group-1", rfl, by decide⟩)

/-! ## Merge engine: basic lemmas -/

theorem getD_set_self (l : List Bool) (j : ℕ) (h : j < l.length) (a d : Bool) :
    (l.set j a).getD j d = a := by
  simp [List.getD, List.getElem?_set_self, h]

theorem getD_set_ne (l : List Bool) (j k : ℕ) (h : j ≠ k) (a d : Bool) :
    (l.set j a).getD k d = l.getD k d := by
  simp [List.getD, List.getElem?_set_ne h]

theorem lt_length_of_getD_false (l : List Bool) (j : ℕ) (h : l.getD j true = false) :
    j < l.length := by
  by_contra hc
  simp [List.getD, List.getElem?_eq_none (by omega : l.length ≤ j)] at h

theorem countFalse_set_true (l : List Bool) (j : ℕ) (h : l.getD j true = false) :
    countFalse (l.set j true) < countFalse l := by
  induction l generalizing j with
  | nil => exact absurd h (by simp [List.getD])
  | cons b t ih =>
    cases j with
    | zero =>
      have hb : b = false := h
      subst hb
      simp [countFalse, List.countP_cons]
    | succ j =>
      have ht : t.getD j true = false := h
      have ih' := ih j ht
      have hset : (b :: t).set (j + 1) true = b :: t.set j true := rfl
      rw [hset]
      simp only [countFalse, List.countP_cons] at *
      omega

theorem memPts_getD (lines : List Line) (j : ℕ) (q : Point)
    (h : q ∈ lines.getD j []) : memPts q lines := by
  by_cases hj : j < lines.length
  · refine ⟨lines.getD j [], ?_, h⟩
    rw [List.getD, List.get?_eq_getElem?, List.getElem?_eq_getElem hj, Option.getD_some]
    exact List.getElem_mem hj
  · rw [List.getD, List.get?_eq_getElem?,
      List.getElem?_eq_none (by omega : lines.length ≤ j)] at h
    exact absurd h (List.not_mem_nil q)

theorem getLastD_reverse (l : Line) (d : Point) : l.reverse.getLastD d = l.headD d := by
  cases l with
  | nil => rfl
  | cons a t => simp [List.reverse_cons]

theorem headD_reverse (l : Line) (d : Point) : l.reverse.headD d = l.getLastD d := by
  rw [← l.reverse_reverse, getLastD_reverse, l.reverse_reverse]

theorem mem_iff_dropLast_or_last (l : Line) (hl : l ≠ []) (q : Point) :
    q ∈ l ↔ q ∈ l.dropLast ∨ q = l.getLastD (0, 0) := by
  have hlast : l.getLastD (0, 0) = l.getLast hl := by
    rw [List.getLastD_eq_getLast?, List.getLast?_eq_getLast l hl]
    rfl
  rw [hlast]
  conv_lhs => rw [← List.dropLast_append_getLast hl]
  rw [List.mem_append, List.mem_singleton]

/-! `fuseLines` structure -/

theorem fuseLines_ne_nil (cur other : Line) (hc : cur ≠ []) (ho : other ≠ []) :
    fuseLines cur other ≠ [] := by
  rw [fuseLines]
  split
  · simp [ho]
  · split
    · simp [hc]
    · split
      · simp [ho]
      · split
        · simp [ho]
        · exact hc

theorem fuseLines_mem (cur other : Line) (hc : cur ≠ []) (ho : other ≠ [])
    (hsh : sharesEndpoint cur other) (q : Point) :
    q ∈ fuseLines cur other ↔ q ∈ cur ∨ q ∈ other := by
  rw [fuseLines]
  split
  case isTrue h1 =>
    have hcur : q ∈ cur ↔ q ∈ cur.reverse.dropLast ∨ q = cur.headD (0, 0) := by
      rw [← List.mem_reverse, mem_iff_dropLast_or_last cur.reverse (by simp [hc]),
        getLastD_reverse]
    have hother : other.headD (0, 0) ∈ other := by
      cases other with
      | nil => exact absurd rfl ho
      | cons a t => exact List.mem_cons_self a t
    constructor
    · intro hq
      rcases List.mem_append.mp hq with hq | hq
      · exact Or.inl (hcur.mpr (Or.inl hq))
      · exact Or.inr hq
    · intro hq
      rcases hq with hq | hq
      · rcases hcur.mp hq with hq | hq
        · exact List.mem_append.mpr (Or.inl hq)
        · exact List.mem_append.mpr (Or.inr (by rw [hq, h1]; exact hother))
      · exact List.mem_append.mpr (Or.inr hq)
  case isFalse h1 =>
    split
    case isTrue h2 =>
      have hoth : q ∈ other ↔ q ∈ other.dropLast ∨ q = other.getLastD (0, 0) :=
        mem_iff_dropLast_or_last other ho q
      have hcurhead : cur.headD (0, 0) ∈ cur := by
        cases cur with
        | nil => exact absurd rfl hc
        | cons a t => exact List.mem_cons_self a t
      constructor
      · intro hq
        rcases List.mem_append.mp hq with hq | hq
        · exact Or.inr (hoth.mpr (Or.inl (List.mem_reverse.mp hq)))
        · exact Or.inl hq
      · intro hq
        rcases hq with hq | hq
        · exact List.mem_append.mpr (Or.inr hq)
        · rcases hoth.mp hq with hq | hq
          · exact List.mem_append.mpr (Or.inl (List.mem_reverse.mpr hq))
          · exact List.mem_append.mpr (Or.inr (by rw [hq, ← h2]; exact hcurhead))
    case isFalse h2 =>
      split
      case isTrue h3 =>
        have hcur : q ∈ cur ↔ q ∈ cur.dropLast ∨ q = cur.getLastD (0, 0) :=
          mem_iff_dropLast_or_last cur hc q
        have hother : other.headD (0, 0) ∈ other := by
          cases other with
          | nil => exact absurd rfl ho
          | cons a t => exact List.mem_cons_self a t
        constructor
        · intro hq
          rcases List.mem_append.mp hq with hq | hq
          · exact Or.inl (hcur.mpr (Or.inl hq))
          · exact Or.inr hq
        · intro hq
          rcases hq with hq | hq
          · rcases hcur.mp hq with hq | hq
            · exact List.mem_append.mpr (Or.inl hq)
            · exact List.mem_append.mpr (Or.inr (by rw [hq, h3]; exact hother))
          · exact List.mem_append.mpr (Or.inr hq)
      case isFalse h3 =>
        split
        case isTrue h4 =>
          have hcur : q ∈ cur ↔ q ∈ cur.dropLast ∨ q = cur.getLastD (0, 0) :=
            mem_iff_dropLast_or_last cur hc q
          have hother : other.getLastD (0, 0) ∈ other := by
            rw [mem_iff_dropLast_or_last other ho]
            exact Or.inr rfl
          constructor
          · intro hq
            rcases List.mem_append.mp hq with hq | hq
            · exact Or.inl (hcur.mpr (Or.inl hq))
            · exact Or.inr (List.mem_reverse.mp hq)
          · intro hq
            rcases hq with hq | hq
            · rcases hcur.mp hq with hq | hq
              · exact List.mem_append.mpr (Or.inl hq)
              · exact List.mem_append.mpr
                  (Or.inr (List.mem_reverse.mpr (by rw [hq, h4]; exact hother)))
            · exact List.mem_append.mpr (Or.inr (List.mem_reverse.mpr hq))
        case isFalse h4 =>
          refine absurd hsh ?_
          unfold sharesEndpoint
          push_neg
          exact ⟨h1, h2, h3, h4⟩

/-! ## `tryMergeJ`: the fuse happens only under the code's guards -/

theorem tryMergeJ_cases (lines merged : List Line) (i : ℕ) (st : MState) (j : ℕ) :
    tryMergeJ lines merged i st j = st ∨
    (j ≠ i ∧ st.processed.getD j true = false ∧ lines.getD j [] ≠ [] ∧
      sharesEndpoint st.current (lines.getD j []) ∧
      connCount lines st.processed merged i j
        (sharedPoint st.current (lines.getD j [])) = 0 ∧
      tryMergeJ lines merged i st j =
        ⟨fuseLines st.current (lines.getD j []), st.processed.set j true, true⟩) := by
  rw [tryMergeJ]
  split
  case isTrue h => exact Or.inl rfl
  case isFalse h =>
    push_neg at h
    obtain ⟨hji, hproc⟩ := h
    split
    case isTrue h2 => exact Or.inl rfl
    case isFalse h2 =>
      split
      case isTrue hsh =>
        split
        case isTrue hcc =>
          exact Or.inr ⟨hji, by simpa using hproc, by simpa using h2, hsh, hcc, rfl⟩
        case isFalse hcc => exact Or.inl rfl
      case isFalse hsh => exact Or.inl rfl

/-! ## One round of the inner loop: invariants of the fold -/

theorem roundAux_flag_mono (lines merged : List Line) (i : ℕ) :
    ∀ (js : List ℕ) (st : MState), st.flag = true →
      (js.foldl (tryMergeJ lines merged i) st).flag = true := by
  intro js
  induction js with
  | nil => intro st h; exact h
  | cons j t ih =>
    intro st h
    rw [List.foldl_cons]
    rcases tryMergeJ_cases lines merged i st j with hc | ⟨_, _, _, _, _, hc⟩
    · rw [hc]; exact ih st h
    · rw [hc]; exact ih _ rfl

theorem roundAux_id (lines merged : List Line) (i : ℕ) :
    ∀ (js : List ℕ) (st : MState),
      (js.foldl (tryMergeJ lines merged i) st).flag = false →
      js.foldl (tryMergeJ lines merged i) st = st := by
  intro js
  induction js with
  | nil => intro st _; rfl
  | cons j t ih =>
    intro st h
    rw [List.foldl_cons] at h ⊢
    rcases tryMergeJ_cases lines merged i st j with hc | ⟨_, _, _, _, _, hc⟩
    · rw [hc] at h ⊢; exact ih st h
    · rw [hc] at h
      have hft := roundAux_flag_mono lines merged i t
        ⟨fuseLines st.current (lines.getD j []), st.processed.set j true, true⟩ rfl
      rw [hft] at h
      cases h

theorem roundAux_processed_mono (lines merged : List Line) (i : ℕ) :
    ∀ (js : List ℕ) (st : MState) (k : ℕ), st.processed.getD k true = true →
      (js.foldl (tryMergeJ lines merged i) st).processed.getD k true = true := by
  intro js
  induction js with
  | nil => intro st k h; exact h
  | cons j t ih =>
    intro st k h
    rw [List.foldl_cons]
    rcases tryMergeJ_cases lines merged i st j with hc | ⟨_, hpf, _, _, _, hc⟩
    · rw [hc]; exact ih st k h
    · rw [hc]
      refine ih _ k ?_
      show (st.processed.set j true).getD k true = true
      by_cases hkj : j = k
      · subst hkj
        exact getD_set_self st.processed j (lt_length_of_getD_false _ _ hpf) true true
      · rw [getD_set_ne st.processed j k hkj]; exact h

theorem roundAux_processed_length (lines merged : List Line) (i : ℕ) :
    ∀ (js : List ℕ) (st : MState),
      (js.foldl (tryMergeJ lines merged i) st).processed.length = st.processed.length := by
  intro js
  induction js with
  | nil => intro st; rfl
  | cons j t ih =>
    intro st
    rw [List.foldl_cons]
    rcases tryMergeJ_cases lines merged i st j with hc | ⟨_, _, _, _, _, hc⟩
    · rw [hc]; exact ih st
    · rw [hc, ih]; exact List.length_set st.processed j true

theorem roundAux_countFalse_le (lines merged : List Line) (i : ℕ) :
    ∀ (js : List ℕ) (st : MState),
      countFalse (js.foldl (tryMergeJ lines merged i) st).processed ≤
        countFalse st.processed := by
  intro js
  induction js with
  | nil => intro st; exact le_refl _
  | cons j t ih =>
    intro st
    rw [List.foldl_cons]
    rcases tryMergeJ_cases lines merged i st j with hc | ⟨_, hpf, _, _, _, hc⟩
    · rw [hc]; exact ih st
    · rw [hc]
      refine le_trans (ih _) (le_of_lt ?_)
      exact countFalse_set_true st.processed j hpf

theorem roundAux_countFalse_lt (lines merged : List Line) (i : ℕ) :
    ∀ (js : List ℕ) (st : MState), st.flag = false →
      (js.foldl (tryMergeJ lines merged i) st).flag = true →
      countFalse (js.foldl (tryMergeJ lines merged i) st).processed <
        countFalse st.processed := by
  intro js
  induction js with
  | nil =>
    intro st h0 h1
    rw [List.foldl_nil] at h1
    rw [h0] at h1
    cases h1
  | cons j t ih =>
    intro st h0 h1
    rw [List.foldl_cons] at h1 ⊢
    rcases tryMergeJ_cases lines merged i st j with hc | ⟨_, hpf, _, _, _, hc⟩
    · rw [hc] at h1 ⊢; exact ih st h0 h1
    · rw [hc] at h1 ⊢
      calc countFalse (t.foldl (tryMergeJ lines merged i)
              ⟨fuseLines st.current (lines.getD j []), st.processed.set j true, true⟩).processed
          ≤ countFalse (st.processed.set j true) := roundAux_countFalse_le lines merged i t _
        _ < countFalse st.processed := countFalse_set_true st.processed j hpf

theorem roundAux_current_ne (lines merged : List Line) (i : ℕ) :
    ∀ (js : List ℕ) (st : MState), st.current ≠ [] →
      (js.foldl (tryMergeJ lines merged i) st).current ≠ [] := by
  intro js
  induction js with
  | nil => intro st h; exact h
  | cons j t ih =>
    intro st h
    rw [List.foldl_cons]
    rcases tryMergeJ_cases lines merged i st j with hc | ⟨_, _, hne, _, _, hc⟩
    · rw [hc]; exact ih st h
    · rw [hc]
      exact ih _ (fuseLines_ne_nil st.current (lines.getD j []) h hne)

theorem roundAux_current_grow (lines merged : List Line) (i : ℕ) :
    ∀ (js : List ℕ) (st : MState), st.current ≠ [] →
      ∀ q ∈ st.current, q ∈ (js.foldl (tryMergeJ lines merged i) st).current := by
  intro js
  induction js with
  | nil => intro st _ q hq; exact hq
  | cons j t ih =>
    intro st h q hq
    rw [List.foldl_cons]
    rcases tryMergeJ_cases lines merged i st j with hc | ⟨_, _, hne, hsh, _, hc⟩
    · rw [hc]; exact ih st h q hq
    · rw [hc]
      refine ih _ (fuseLines_ne_nil st.current (lines.getD j []) h hne) q ?_
      exact (fuseLines_mem st.current (lines.getD j []) h hne hsh q).mpr (Or.inl hq)

theorem roundAux_current_sub (lines merged : List Line) (i : ℕ) :
    ∀ (js : List ℕ) (st : MState), st.current ≠ [] →
      ∀ q ∈ (js.foldl (tryMergeJ lines merged i) st).current,
        q ∈ st.current ∨ memPts q lines := by
  intro js
  induction js with
  | nil => intro st _ q hq; exact Or.inl hq
  | cons j t ih =>
    intro st h q hq
    rw [List.foldl_cons] at hq
    rcases tryMergeJ_cases lines merged i st j with hc | ⟨_, _, hne, hsh, _, hc⟩
    · rw [hc] at hq; exact ih st h q hq
    · rw [hc] at hq
      rcases ih _ (fuseLines_ne_nil st.current (lines.getD j []) h hne) q hq with hq2 | hq2
      · rcases (fuseLines_mem st.current (lines.getD j []) h hne hsh q).mp hq2 with hq3 | hq3
        · exact Or.inl hq3
        · exact Or.inr (memPts_getD lines j q hq3)
      · exact Or.inr hq2

theorem roundAux_newly_processed (lines merged : List Line) (i : ℕ) :
    ∀ (js : List ℕ) (st : MState), st.current ≠ [] →
      ∀ k, (js.foldl (tryMergeJ lines merged i) st).processed.getD k true = true →
        st.processed.getD k true = true ∨
        ∀ q ∈ lines.getD k [], q ∈ (js.foldl (tryMergeJ lines merged i) st).current := by
  intro js
  induction js with
  | nil => intro st _ k h; exact Or.inl h
  | cons j t ih =>
    intro st h k hk
    rw [List.foldl_cons] at hk ⊢
    rcases tryMergeJ_cases lines merged i st j with hc | ⟨_, hpf, hne, hsh, _, hc⟩
    · rw [hc] at hk ⊢; exact ih st h k hk
    · rw [hc] at hk ⊢
      have hne2 : fuseLines st.current (lines.getD j []) ≠ [] :=
        fuseLines_ne_nil st.current (lines.getD j []) h hne
      rcases ih _ hne2 k hk with hk2 | hk2
      · by_cases hkj : j = k
        · subst hkj
          refine Or.inr ?_
          intro q hq
          refine roundAux_current_grow lines merged i t _ hne2 q ?_
          exact (fuseLines_mem st.current (lines.getD j []) h hne hsh q).mpr (Or.inr hq)
        · rw [getD_set_ne st.processed j k hkj] at hk2
          exact Or.inl hk2
      · exact Or.inr hk2

/-! ## The inner `loop`: fuel adequacy and invariants -/

theorem mergeRound_def (lines merged : List Line) (i : ℕ) (cur : Line)
    (processed : List Bool) :
    mergeRound lines merged i cur processed =
      (List.range lines.length).foldl (tryMergeJ lines merged i)
        ⟨cur, processed, false⟩ := rfl

/-- With more fuel than there are unprocessed lines, the loop always returns a
state on which one more round would find nothing to merge — exactly the state
at which the Rust `loop` breaks.  This justifies the `countFalse processed + 1`
fuel of `mergeInner`. -/
theorem mergeLoopF_fix (lines merged : List Line) (i : ℕ) :
    ∀ (fuel : ℕ) (cur : Line) (processed : List Bool),
      countFalse processed < fuel →
      (mergeRound lines merged i
        (mergeLoopF lines merged i fuel cur processed).1
        (mergeLoopF lines merged i fuel cur processed).2).flag = false := by
  intro fuel
  induction fuel with
  | zero => intro cur processed h; exact absurd h (by omega)
  | succ fuel ih =>
    intro cur processed h
    simp only [mergeLoopF]
    by_cases hf : (mergeRound lines merged i cur processed).flag
    · rw [if_pos hf]
      refine ih _ _ ?_
      have hlt : countFalse (mergeRound lines merged i cur processed).processed <
          countFalse processed := by
        rw [mergeRound_def] at hf ⊢
        exact roundAux_countFalse_lt lines merged i _ ⟨cur, processed, false⟩ rfl hf
      omega
    · rw [if_neg hf]
      have hid := roundAux_id lines merged i (List.range lines.length)
        ⟨cur, processed, false⟩ (by rw [← mergeRound_def]; simpa using hf)
      rw [← mergeRound_def] at hid
      rw [hid]
      simp only [Bool.not_eq_true] at hf
      exact hf

theorem loopF_processed_mono (lines merged : List Line) (i : ℕ) :
    ∀ (fuel : ℕ) (cur : Line) (processed : List Bool) (k : ℕ),
      processed.getD k true = true →
      (mergeLoopF lines merged i fuel cur processed).2.getD k true = true := by
  intro fuel
  induction fuel with
  | zero => intro cur processed k h; exact h
  | succ fuel ih =>
    intro cur processed k h
    simp only [mergeLoopF]
    have hstep : (mergeRound lines merged i cur processed).processed.getD k true = true := by
      rw [mergeRound_def]
      exact roundAux_processed_mono lines merged i _ ⟨cur, processed, false⟩ k h
    by_cases hf : (mergeRound lines merged i cur processed).flag
    · rw [if_pos hf]; exact ih _ _ k hstep
    · rw [if_neg hf]; exact hstep

theorem loopF_processed_length (lines merged : List Line) (i : ℕ) :
    ∀ (fuel : ℕ) (cur : Line) (processed : List Bool),
      (mergeLoopF lines merged i fuel cur processed).2.length = processed.length := by
  intro fuel
  induction fuel with
  | zero => intro cur processed; rfl
  | succ fuel ih =>
    intro cur processed
    simp only [mergeLoopF]
    have hstep : (mergeRound lines merged i cur processed).processed.length =
        processed.length := by
      rw [mergeRound_def]
      exact roundAux_processed_length lines merged i _ ⟨cur, processed, false⟩
    by_cases hf : (mergeRound lines merged i cur processed).flag
    · rw [if_pos hf, ih, hstep]
    · rw [if_neg hf]; exact hstep

theorem loopF_current_ne (lines merged : List Line) (i : ℕ) :
    ∀ (fuel : ℕ) (cur : Line) (processed : List Bool), cur ≠ [] →
      (mergeLoopF lines merged i fuel cur processed).1 ≠ [] := by
  intro fuel
  induction fuel with
  | zero => intro cur processed h; exact h
  | succ fuel ih =>
    intro cur processed h
    simp only [mergeLoopF]
    have hstep : (mergeRound lines merged i cur processed).current ≠ [] := by
      rw [mergeRound_def]
      exact roundAux_current_ne lines merged i _ ⟨cur, processed, false⟩ h
    by_cases hf : (mergeRound lines merged i cur processed).flag
    · rw [if_pos hf]; exact ih _ _ hstep
    · rw [if_neg hf]; exact hstep

theorem loopF_current_grow (lines merged : List Line) (i : ℕ) :
    ∀ (fuel : ℕ) (cur : Line) (processed : List Bool), cur ≠ [] →
      ∀ q ∈ cur, q ∈ (mergeLoopF lines merged i fuel cur processed).1 := by
  intro fuel
  induction fuel with
  | zero => intro cur processed _ q hq; exact hq
  | succ fuel ih =>
    intro cur processed h q hq
    simp only [mergeLoopF]
    have hne : (mergeRound lines merged i cur processed).current ≠ [] := by
      rw [mergeRound_def]
      exact roundAux_current_ne lines merged i _ ⟨cur, processed, false⟩ h
    have hstep : q ∈ (mergeRound lines merged i cur processed).current := by
      rw [mergeRound_def]
      exact roundAux_current_grow lines merged i _ ⟨cur, processed, false⟩ h q hq
    by_cases hf : (mergeRound lines merged i cur processed).flag
    · rw [if_pos hf]; exact ih _ _ hne q hstep
    · rw [if_neg hf]; exact hstep

theorem loopF_current_sub (lines merged : List Line) (i : ℕ) :
    ∀ (fuel : ℕ) (cur : Line) (processed : List Bool), cur ≠ [] →
      ∀ q ∈ (mergeLoopF lines merged i fuel cur processed).1,
        q ∈ cur ∨ memPts q lines := by
  intro fuel
  induction fuel with
  | zero => intro cur processed _ q hq; exact Or.inl hq
  | succ fuel ih =>
    intro cur processed h q hq
    simp only [mergeLoopF] at hq
    have hne : (mergeRound lines merged i cur processed).current ≠ [] := by
      rw [mergeRound_def]
      exact roundAux_current_ne lines merged i _ ⟨cur, processed, false⟩ h
    by_cases hf : (mergeRound lines merged i cur processed).flag
    · rw [if_pos hf] at hq
      rcases ih _ _ hne q hq with hq2 | hq2
      · rw [mergeRound_def] at hq2
        exact roundAux_current_sub lines merged i _ ⟨cur, processed, false⟩ h q hq2
      · exact Or.inr hq2
    · rw [if_neg hf] at hq
      rw [mergeRound_def] at hq
      exact roundAux_current_sub lines merged i _ ⟨cur, processed, false⟩ h q hq

theorem loopF_newly_processed (lines merged : List Line) (i : ℕ) :
    ∀ (fuel : ℕ) (cur : Line) (processed : List Bool), cur ≠ [] →
      ∀ k, (mergeLoopF lines merged i fuel cur processed).2.getD k true = true →
        processed.getD k true = true ∨
        ∀ q ∈ lines.getD k [], q ∈ (mergeLoopF lines merged i fuel cur processed).1 := by
  intro fuel
  induction fuel with
  | zero => intro cur processed _ k h; exact Or.inl h
  | succ fuel ih =>
    intro cur processed h k hk
    simp only [mergeLoopF] at hk ⊢
    have hne : (mergeRound lines merged i cur processed).current ≠ [] := by
      rw [mergeRound_def]
      exact roundAux_current_ne lines merged i _ ⟨cur, processed, false⟩ h
    by_cases hf : (mergeRound lines merged i cur processed).flag
    · rw [if_pos hf] at hk ⊢
      rcases ih _ _ hne k hk with hk2 | hk2
      · rw [mergeRound_def] at hk2
        rcases roundAux_newly_processed lines merged i _ ⟨cur, processed, false⟩ h k hk2
          with hk3 | hk3
        · exact Or.inl hk3
        · refine Or.inr ?_
          intro q hq
          refine loopF_current_grow lines merged i fuel _ _ hne q ?_
          rw [mergeRound_def]
          exact hk3 q hq
      · exact Or.inr hk2
    · rw [if_neg hf] at hk ⊢
      rw [mergeRound_def] at hk
      rcases roundAux_newly_processed lines merged i _ ⟨cur, processed, false⟩ h k hk
        with hk2 | hk2
      · exact Or.inl hk2
      · refine Or.inr ?_
        intro q hq
        rw [mergeRound_def]
        exact hk2 q hq

/-! ## The outer loop -/

theorem mergeInner_def (lines merged : List Line) (i : ℕ) (cur : Line)
    (processed : List Bool) :
    mergeInner lines merged i cur processed =
      mergeLoopF lines merged i (countFalse processed + 1) cur processed := rfl

theorem outer_sub (lines : List Line) :
    ∀ (is : List ℕ) (processed : List Bool) (merged : List Line),
      (∀ q, memPts q merged → memPts q lines) →
      ∀ q, memPts q (mergeOuter lines is processed merged) → memPts q lines := by
  intro is
  induction is with
  | nil => intro processed merged hm q hq; exact hm q hq
  | cons i rest ih =>
    intro processed merged hm q hq
    simp only [mergeOuter] at hq
    by_cases h1 : processed.getD i true = true
    · rw [if_pos h1] at hq; exact ih _ _ hm q hq
    · rw [if_neg h1] at hq
      by_cases h2 : (lines.getD i []).isEmpty = true
      · rw [if_pos h2] at hq; exact ih _ _ hm q hq
      · rw [if_neg h2] at hq
        have hcur : lines.getD i [] ≠ [] := by simpa [List.isEmpty_iff] using h2
        refine ih _ _ ?_ q hq
        intro q' hq'
        obtain ⟨l, hl, hql⟩ := hq'
        rcases List.mem_append.mp hl with hl2 | hl2
        · exact hm q' ⟨l, hl2, hql⟩
        · rw [List.mem_singleton] at hl2
          subst hl2
          rw [mergeInner_def] at hql
          rcases loopF_current_sub lines merged i _ _ _ hcur q' hql with hq2 | hq2
          · exact memPts_getD lines i q' hq2
          · exact hq2

theorem outer_ne (lines : List Line) :
    ∀ (is : List ℕ) (processed : List Bool) (merged : List Line),
      (∀ l ∈ merged, l ≠ []) →
      ∀ l ∈ mergeOuter lines is processed merged, l ≠ [] := by
  intro is
  induction is with
  | nil => intro processed merged hm l hl; exact hm l hl
  | cons i rest ih =>
    intro processed merged hm l hl
    simp only [mergeOuter] at hl
    by_cases h1 : processed.getD i true = true
    · rw [if_pos h1] at hl; exact ih _ _ hm l hl
    · rw [if_neg h1] at hl
      by_cases h2 : (lines.getD i []).isEmpty = true
      · rw [if_pos h2] at hl; exact ih _ _ hm l hl
      · rw [if_neg h2] at hl
        have hcur : lines.getD i [] ≠ [] := by simpa [List.isEmpty_iff] using h2
        refine ih _ _ ?_ l hl
        intro l' hl'
        rcases List.mem_append.mp hl' with hl2 | hl2
        · exact hm l' hl2
        · rw [List.mem_singleton] at hl2
          subst hl2
          rw [mergeInner_def]
          exact loopF_current_ne lines merged i _ _ _ hcur

theorem outer_sup (lines : List Line) :
    ∀ (is : List ℕ) (processed : List Bool) (merged : List Line),
      processed.length = lines.length →
      (∀ k, processed.getD k true = true → ∀ q ∈ lines.getD k [], memPts q merged) →
      (∀ k, k < lines.length → processed.getD k true = false → k ∈ is) →
      (∀ q, memPts q merged → memPts q (mergeOuter lines is processed merged)) ∧
      (∀ (k : ℕ), ∀ q ∈ lines.getD k [], memPts q (mergeOuter lines is processed merged)) := by
  intro is
  induction is with
  | nil =>
    intro processed merged hlen hP1 hP2
    constructor
    · intro q hq; exact hq
    · intro k q hq
      by_cases hk : k < lines.length
      · cases hpk : processed.getD k true with
        | false => exact absurd (hP2 k hk hpk) (List.not_mem_nil k)
        | true => exact hP1 k hpk q hq
      · rw [List.getD, List.get?_eq_getElem?,
          List.getElem?_eq_none (by omega : lines.length ≤ k)] at hq
        exact absurd hq (List.not_mem_nil q)
  | cons i rest ih =>
    intro processed merged hlen hP1 hP2
    simp only [mergeOuter]
    by_cases h1 : processed.getD i true = true
    · rw [if_pos h1]
      refine ih processed merged hlen hP1 ?_
      intro k hk hpk
      rcases List.mem_cons.mp (hP2 k hk hpk) with rfl | hr
      · rw [h1] at hpk; cases hpk
      · exact hr
    · rw [if_neg h1]
      have h1f : processed.getD i true = false := by simpa using h1
      have hilt : i < processed.length := lt_length_of_getD_false _ _ h1f
      by_cases h2 : (lines.getD i []).isEmpty = true
      · rw [if_pos h2]
        have hempty : lines.getD i [] = [] := by simpa [List.isEmpty_iff] using h2
        refine ih (processed.set i true) merged
          (by rw [List.length_set]; exact hlen) ?_ ?_
        · intro k hpk q hq
          by_cases hki : i = k
          · subst hki; rw [hempty] at hq; exact absurd hq (List.not_mem_nil q)
          · rw [getD_set_ne _ _ _ hki] at hpk; exact hP1 k hpk q hq
        · intro k hk hpk
          by_cases hki : i = k
          · subst hki; rw [getD_set_self _ _ hilt] at hpk; cases hpk
          · rw [getD_set_ne _ _ _ hki] at hpk
            rcases List.mem_cons.mp (hP2 k hk hpk) with rfl | hr
            · exact absurd rfl hki
            · exact hr
      · rw [if_neg h2]
        have hcur : lines.getD i [] ≠ [] := by simpa [List.isEmpty_iff] using h2
        rw [mergeInner_def]
        set L := mergeLoopF lines merged i (countFalse processed + 1)
          (lines.getD i []) processed with hLdef
        have hlen2 : L.2.length = processed.length :=
          loopF_processed_length lines merged i _ _ _
        have hgrow : ∀ q ∈ lines.getD i [], q ∈ L.1 :=
          loopF_current_grow lines merged i (countFalse processed + 1)
            (lines.getD i []) processed hcur
        have hnewly : ∀ k, L.2.getD k true = true →
            processed.getD k true = true ∨ ∀ q ∈ lines.getD k [], q ∈ L.1 :=
          loopF_newly_processed lines merged i (countFalse processed + 1)
            (lines.getD i []) processed hcur
        have hmono : ∀ k, processed.getD k true = true → L.2.getD k true = true :=
          fun k => loopF_processed_mono lines merged i (countFalse processed + 1)
            (lines.getD i []) processed k
        have hQ1 : ∀ k, (L.2.set i true).getD k true = true →
            ∀ q ∈ lines.getD k [], memPts q (merged ++ [L.1]) := by
          intro k hpk q hq
          by_cases hki : i = k
          · subst hki
            refine ⟨L.1, List.mem_append.mpr (Or.inr (List.mem_singleton.mpr rfl)), ?_⟩
            exact hgrow q hq
          · rw [getD_set_ne _ _ _ hki] at hpk
            rcases hnewly k hpk with hk2 | hk2
            · obtain ⟨l, hl, hql⟩ := hP1 k hk2 q hq
              exact ⟨l, List.mem_append.mpr (Or.inl hl), hql⟩
            · exact ⟨L.1, List.mem_append.mpr (Or.inr (List.mem_singleton.mpr rfl)),
                hk2 q hq⟩
        have hQ2 : ∀ k, k < lines.length → (L.2.set i true).getD k true = false →
            k ∈ rest := by
          intro k hk hpk
          by_cases hki : i = k
          · subst hki
            rw [getD_set_self _ _ (by rw [hlen2]; exact hilt)] at hpk
            cases hpk
          · rw [getD_set_ne _ _ _ hki] at hpk
            have hpf : processed.getD k true = false := by
              cases hp0 : processed.getD k true with
              | false => rfl
              | true => rw [hmono k hp0] at hpk; cases hpk
            rcases List.mem_cons.mp (hP2 k hk hpf) with rfl | hr
            · exact absurd rfl hki
            · exact hr
        obtain ⟨ihA, ihB⟩ := ih (L.2.set i true) (merged ++ [L.1])
          (by rw [List.length_set, hlen2]; exact hlen) hQ1 hQ2
        refine ⟨?_, ihB⟩
        intro q hq
        refine ihA q ?_
        obtain ⟨l, hl, hql⟩ := hq
        exact ⟨l, List.mem_append.mpr (Or.inl hl), hql⟩

/-! ## Point preservation (C3) and degenerate inputs (C4) -/

/-- Claim C3, counterexample: fusing drops one copy of the shared endpoint, so
the multiset of output points is a strict sub-multiset of the input points:
for the chain `[(0,0),(1,1)]`, `[(1,1),(2,2)]` the point `(1,1)` occurs twice
in the input but only once in the merged output. -/
theorem merge_lines_multiset_counterexample :
    ¬ ((merge_lines [[((0 : ℚ), (0 : ℚ)), (1, 1)], [(1, 1), (2, 2)]]).flatten.Perm
        (([[((0 : ℚ), (0 : ℚ)), (1, 1)], [(1, 1), (2, 2)]] : List Line).flatten)) := by
  decide

/-- Claim C3 (amended): every point of every output polyline (in particular
every interior point) is a point of some input polyline, and conversely every
input point survives into some output polyline — the input and output point
SETS agree, though each fuse drops one duplicate copy of its shared endpoint,
so the multisets differ. -/
theorem merge_lines_point_set :
    (∀ lines : List Line, ∀ l ∈ merge_lines lines, ∀ q ∈ l, memPts q lines) ∧
    (∀ (lines : List Line) (q : Point),
      memPts q (merge_lines lines) ↔ memPts q lines) := by
  have main : ∀ (lines : List Line) (q : Point),
      memPts q (merge_lines lines) ↔ memPts q lines := by
    intro lines q
    rw [merge_lines]
    by_cases hemp : lines.isEmpty = true
    · rw [if_pos hemp]
      have hnil : lines = [] := List.isEmpty_iff.mp hemp
      subst hnil
      exact Iff.rfl
    · rw [if_neg hemp]
      constructor
      · refine outer_sub lines _ _ _ ?_ q
        rintro q' ⟨l, hl, -⟩
        exact absurd hl (List.not_mem_nil l)
      · intro hq
        obtain ⟨l, hl, hql⟩ := hq
        obtain ⟨k, hk, hkl⟩ := List.mem_iff_getElem.mp hl
        have hgetD : lines.getD k [] = l := by
          rw [List.getD, List.get?_eq_getElem?, List.getElem?_eq_getElem hk,
            Option.getD_some, hkl]
        refine (outer_sup lines (List.range lines.length)
          (List.replicate lines.length false) [] ?_ ?_ ?_).2 k q ?_
        · exact List.length_replicate _ _
        · intro k' hpk' q' hq'
          by_cases hk' : k' < lines.length
          · rw [List.getD, List.get?_eq_getElem?,
              List.getElem?_eq_getElem (by rwa [List.length_replicate])] at hpk'
            simp [List.getElem_replicate] at hpk'
          · rw [List.getD, List.get?_eq_getElem?,
              List.getElem?_eq_none (by omega : lines.length ≤ k')] at hq'
            exact absurd hq' (List.not_mem_nil q')
        · intro k' hk' _
          exact List.mem_range.mpr hk'
        · rw [hgetD]; exact hql
  exact ⟨fun lines l hl q hq => (main lines q).mp ⟨l, hl, hq⟩, main⟩

theorem merge_lines_point_set_witness :
    memPts ((1 : ℚ), (1 : ℚ)) [[((0 : ℚ), (0 : ℚ)), (1, 1)], [(1, 1), (2, 2)]] ∧
    memPts ((2 : ℚ), (2 : ℚ))
      (merge_lines [[((0 : ℚ), (0 : ℚ)), (1, 1)], [(1, 1), (2, 2)]]) :=
  ⟨merge_lines_point_set.1 [[(0, 0), (1, 1)], [(1, 1), (2, 2)]]
      [(0, 0), (1, 1), (2, 2)] (by decide) (1, 1) (by decide),
    (merge_lines_point_set.2 [[(0, 0), (1, 1)], [(1, 1), (2, 2)]] (2, 2)).mpr
      ⟨[(1, 1), (2, 2)], by decide, by decide⟩⟩

/-- Claim C4, counterexample: a polyline with an empty point list does NOT
pass through `merge_lines` — it is marked processed and dropped, so the
singleton input `[[]]` yields `[]`, not `[[]]`. -/
theorem merge_lines_empty_counterexample :
    merge_lines [([] : Line)] = [] ∧ ([] : Line) ∉ merge_lines [([] : Line)] := by
  decide

/-- Claim C4 (amended): polylines with empty point lists are dropped (no
output polyline is ever empty), and a singleton input whose polyline is
nonempty passes through unchanged. -/
theorem merge_lines_degenerate :
    (∀ lines : List Line, ∀ l ∈ merge_lines lines, l ≠ []) ∧
    (∀ l : Line, l ≠ [] → merge_lines [l] = [l]) := by
  constructor
  · intro lines l hl
    rw [merge_lines] at hl
    by_cases hemp : lines.isEmpty = true
    · rw [if_pos hemp] at hl; exact absurd hl (List.not_mem_nil l)
    · rw [if_neg hemp] at hl
      refine outer_ne lines _ _ _ ?_ l hl
      intro l' hl'
      exact absurd hl' (List.not_mem_nil l')
  · intro l hl
    have hle : l.isEmpty = false := by simpa [List.isEmpty_iff] using hl
    show mergeOuter [l] [0] [false] [] = [l]
    simp only [mergeOuter]
    rw [if_neg (by decide), if_neg (by simp [List.getD_cons_zero, hle])]
    simp only [List.getD_cons_zero]
    have hinner : mergeInner [l] [] 0 l [false] = (l, [false]) := rfl
    rw [hinner]
    simp only [mergeOuter]
    rfl

theorem merge_lines_degenerate_witness :
    merge_lines [[((5 : ℚ), (5 : ℚ)), (6, 6)]] = [[(5, 5), (6, 6)]] ∧
    ([] : Line) ∉ merge_lines [[((0 : ℚ), (0 : ℚ)), (1, 1)], [(1, 1), (2, 2)]] :=
  ⟨merge_lines_degenerate.2 [(5, 5), (6, 6)] (by decide),
    fun hmem => merge_lines_degenerate.1 _ [] hmem rfl⟩

/-! ## Helpers for the fuse-chain and junction-blocking claims -/

theorem reverse_dropLast (l : Line) : l.reverse.dropLast = l.tail.reverse := by
  cases l with
  | nil => rfl
  | cons a t => simp [List.reverse_cons, List.dropLast_concat]

theorem head?_eq_some_headD (l : Line) (hl : l ≠ []) :
    l.head? = some (l.headD (0, 0)) := by
  cases l with
  | nil => exact absurd rfl hl
  | cons a t => rfl

theorem count_tail_add (l : Line) (hl : l ≠ []) (q : Point) :
    l.tail.count q + (if q = l.headD (0, 0) then 1 else 0) = l.count q := by
  cases l with
  | nil => exact absurd rfl hl
  | cons a t =>
    rw [List.count_cons]
    simp only [List.headD_cons, List.tail_cons]
    by_cases hqa : q = a
    · simp [hqa]
    · simp [hqa, Ne.symm hqa]

theorem count_dropLast_add (l : Line) (hl : l ≠ []) (q : Point) :
    l.dropLast.count q + (if q = l.getLastD (0, 0) then 1 else 0) = l.count q := by
  have hlast : l.getLastD (0, 0) = l.getLast hl := by
    rw [List.getLastD_eq_getLast?, List.getLast?_eq_getLast l hl]
    rfl
  conv_rhs => rw [← List.dropLast_append_getLast hl]
  rw [List.count_append, hlast]
  congr 1
  rw [List.count_cons, List.count_nil]
  by_cases hqa : q = l.getLast hl
  · simp [hqa]
  · simp [hqa, Ne.symm hqa]

theorem sharedPoint_star (la lb : Line) (p ba bb : Point)
    (ha : (la.headD (0, 0) = p ∧ la.getLastD (0, 0) = ba) ∨
      (la.headD (0, 0) = ba ∧ la.getLastD (0, 0) = p))
    (hb : (lb.headD (0, 0) = p ∧ lb.getLastD (0, 0) = bb) ∨
      (lb.headD (0, 0) = bb ∧ lb.getLastD (0, 0) = p))
    (hpa : p ≠ ba) (hpb : p ≠ bb) (hab : ba ≠ bb) :
    sharedPoint la lb = p := by
  rw [sharedPoint]
  rcases ha with ⟨ha1, ha2⟩ | ⟨ha1, ha2⟩ <;> rcases hb with ⟨hb1, hb2⟩ | ⟨hb1, hb2⟩ <;>
    rw [ha1, ha2, hb1, hb2] <;>
    simp [hpa, hpb, hab, Ne.symm hpa, Ne.symm hpb, Ne.symm hab]

theorem sharesEndpoint_star (la lb : Line) (p ba bb : Point)
    (ha : (la.headD (0, 0) = p ∧ la.getLastD (0, 0) = ba) ∨
      (la.headD (0, 0) = ba ∧ la.getLastD (0, 0) = p))
    (hb : (lb.headD (0, 0) = p ∧ lb.getLastD (0, 0) = bb) ∨
      (lb.headD (0, 0) = bb ∧ lb.getLastD (0, 0) = p)) :
    sharesEndpoint la lb := by
  unfold sharesEndpoint
  rcases ha with ⟨ha1, ha2⟩ | ⟨ha1, ha2⟩ <;> rcases hb with ⟨hb1, hb2⟩ | ⟨hb1, hb2⟩ <;>
    rw [ha1, ha2, hb1, hb2] <;> tauto

theorem touches_star (l : Line) (p b : Point)
    (hl : l ≠ [])
    (he : (l.headD (0, 0) = p ∧ l.getLastD (0, 0) = b) ∨
      (l.headD (0, 0) = b ∧ l.getLastD (0, 0) = p)) :
    touches p l = true := by
  rcases he with ⟨h1, _⟩ | ⟨_, h2⟩
  · rw [touches, h1]; simp [hl]
  · rw [touches, h2]; simp [hl]

theorem connCount_pos_of_touches (lines : List Line) (processed : List Bool)
    (merged : List Line) (i j k : ℕ) (p : Point)
    (hk : k < lines.length) (hki : k ≠ i) (hkj : k ≠ j)
    (hproc : processed.getD k true = false)
    (ht : touches p (lines.getD k []) = true) :
    connCount lines processed merged i j p ≠ 0 := by
  rw [connCount]
  intro h0
  have h1 : (List.range lines.length).countP
      (fun k' => !decide (k' = i) && !decide (k' = j) &&
        !processed.getD k' true && touches p (lines.getD k' [])) = 0 := by omega
  rw [List.countP_eq_zero] at h1
  have h2 := h1 k (List.mem_range.mpr hk)
  refine h2 ?_
  rw [hproc, ht]
  simp [hki, hkj]

theorem connCount_pos_of_merged (lines : List Line) (processed : List Bool)
    (merged : List Line) (i j : ℕ) (p : Point) (m : Line)
    (hm : m ∈ merged) (ht : touches p m = true) :
    connCount lines processed merged i j p ≠ 0 := by
  rw [connCount]
  intro h0
  have h2 : merged.countP (fun m' => touches p m') = 0 := by omega
  rw [List.countP_eq_zero] at h2
  have h3 := h2 m hm
  rw [ht] at h3
  exact h3 rfl

theorem foldl_tryMergeJ_id (lines merged : List Line) (i : ℕ) (js : List ℕ) (st : MState)
    (h : ∀ j ∈ js, tryMergeJ lines merged i st j = st) :
    js.foldl (tryMergeJ lines merged i) st = st := by
  induction js with
  | nil => rfl
  | cons j t ih =>
    rw [List.foldl_cons, h j (by simp)]
    exact ih fun x hx => h x (by simp [hx])

theorem mergeRound_id (lines merged : List Line) (i : ℕ) (cur : Line)
    (processed : List Bool)
    (h : ∀ j, j < lines.length →
      tryMergeJ lines merged i ⟨cur, processed, false⟩ j = ⟨cur, processed, false⟩) :
    mergeRound lines merged i cur processed = ⟨cur, processed, false⟩ := by
  rw [mergeRound_def]
  exact foldl_tryMergeJ_id lines merged i _ _ fun j hj => h j (List.mem_range.mp hj)

theorem mergeInner_id (lines merged : List Line) (i : ℕ) (cur : Line)
    (processed : List Bool)
    (h : mergeRound lines merged i cur processed = ⟨cur, processed, false⟩) :
    mergeInner lines merged i cur processed = (cur, processed) := by
  rw [mergeInner_def]
  simp only [mergeLoopF]
  rw [h]
  simp

theorem tryMergeJ_id_self (lines merged : List Line) (i : ℕ) (st : MState) :
    tryMergeJ lines merged i st i = st := by
  rw [tryMergeJ, if_pos (Or.inl rfl)]

theorem tryMergeJ_id_of_processed (lines merged : List Line) (i : ℕ) (st : MState)
    (j : ℕ) (h : st.processed.getD j true = true) :
    tryMergeJ lines merged i st j = st := by
  rw [tryMergeJ, if_pos (Or.inr h)]

theorem tryMergeJ_id_of_conn (lines merged : List Line) (i : ℕ) (st : MState) (j : ℕ)
    (h : connCount lines st.processed merged i j
      (sharedPoint st.current (lines.getD j [])) ≠ 0) :
    tryMergeJ lines merged i st j = st := by
  rcases tryMergeJ_cases lines merged i st j with hc | ⟨_, _, _, _, hcc, _⟩
  · exact hc
  · exact absurd hcc h

/-- Claim C1: whenever `merge_lines` fuses two polylines of length ≥ 2 at a
shared endpoint (in any of the four cases start-start, start-end, end-start,
end-end, with the code's branch priority), the resulting chain is the
concatenation of the two point sequences with one side reversed as needed,
the shared point lands at an interior position, the duplicate shared
coordinate is dropped exactly once (point counts drop by exactly one at the
shared point and are preserved elsewhere), and the interior points of both
inputs are carried over verbatim inside the two concatenated blocks. -/
theorem fuse_chain_structure (cur other : Line)
    (hc : 2 ≤ cur.length) (ho : 2 ≤ other.length) :
    ((cur.headD (0, 0) = other.headD (0, 0)) →
      fuseLines cur other = cur.tail.reverse ++ other ∧
      sharedPoint cur other = cur.headD (0, 0) ∧
      (fuseLines cur other).length + 1 = cur.length + other.length ∧
      (0 < cur.length - 1 ∧ cur.length - 1 + 1 < (fuseLines cur other).length ∧
        (fuseLines cur other)[cur.length - 1]? = some (cur.headD (0, 0))) ∧
      (∀ q : Point, (fuseLines cur other).count q +
        (if q = cur.headD (0, 0) then 1 else 0) = cur.count q + other.count q)) ∧
    (cur.headD (0, 0) ≠ other.headD (0, 0) →
      cur.headD (0, 0) = other.getLastD (0, 0) →
      fuseLines cur other = other.dropLast.reverse ++ cur ∧
      sharedPoint cur other = cur.headD (0, 0) ∧
      (fuseLines cur other).length + 1 = cur.length + other.length ∧
      (0 < other.length - 1 ∧ other.length - 1 + 1 < (fuseLines cur other).length ∧
        (fuseLines cur other)[other.length - 1]? = some (cur.headD (0, 0))) ∧
      (∀ q : Point, (fuseLines cur other).count q +
        (if q = cur.headD (0, 0) then 1 else 0) = cur.count q + other.count q)) ∧
    (cur.headD (0, 0) ≠ other.headD (0, 0) →
      cur.headD (0, 0) ≠ other.getLastD (0, 0) →
      cur.getLastD (0, 0) = other.headD (0, 0) →
      fuseLines cur other = cur.dropLast ++ other ∧
      sharedPoint cur other = cur.getLastD (0, 0) ∧
      (fuseLines cur other).length + 1 = cur.length + other.length ∧
      (0 < cur.length - 1 ∧ cur.length - 1 + 1 < (fuseLines cur other).length ∧
        (fuseLines cur other)[cur.length - 1]? = some (cur.getLastD (0, 0))) ∧
      (∀ q : Point, (fuseLines cur other).count q +
        (if q = cur.getLastD (0, 0) then 1 else 0) = cur.count q + other.count q)) ∧
    (cur.headD (0, 0) ≠ other.headD (0, 0) →
      cur.headD (0, 0) ≠ other.getLastD (0, 0) →
      cur.getLastD (0, 0) ≠ other.headD (0, 0) →
      cur.getLastD (0, 0) = other.getLastD (0, 0) →
      fuseLines cur other = cur.dropLast ++ other.reverse ∧
      sharedPoint cur other = cur.getLastD (0, 0) ∧
      (fuseLines cur other).length + 1 = cur.length + other.length ∧
      (0 < cur.length - 1 ∧ cur.length - 1 + 1 < (fuseLines cur other).length ∧
        (fuseLines cur other)[cur.length - 1]? = some (cur.getLastD (0, 0))) ∧
      (∀ q : Point, (fuseLines cur other).count q +
        (if q = cur.getLastD (0, 0) then 1 else 0) = cur.count q + other.count q)) := by
  have hcne : cur ≠ [] := by intro h; subst h; simp at hc
  have hone : other ≠ [] := by intro h; subst h; simp at ho
  refine ⟨fun h1 => ?_, fun h1 h2 => ?_, fun h1 h2 h3 => ?_, fun h1 h2 h3 h4 => ?_⟩
  · -- start-start
    have hr : fuseLines cur other = cur.tail.reverse ++ other := by
      rw [fuseLines, if_pos h1, reverse_dropLast]
    have hlen1 : cur.tail.reverse.length = cur.length - 1 := by simp
    have hrlen : (fuseLines cur other).length = cur.length - 1 + other.length := by
      rw [hr, List.length_append, hlen1]
    refine ⟨hr, by rw [sharedPoint, if_pos h1], by omega, ⟨by omega, by omega, ?_⟩, ?_⟩
    · rw [hr, List.getElem?_append_right (by simp [hlen1]), hlen1, Nat.sub_self,
        ← List.head?_eq_getElem?, head?_eq_some_headD other hone, h1]
    · intro q
      rw [hr, List.count_append, List.count_reverse]
      have h5 := count_tail_add cur hcne q
      by_cases hq : q = cur.headD (0, 0)
      · simp only [hq, if_pos rfl] at h5 ⊢; omega
      · simp only [hq, if_neg, ite_false] at h5 ⊢
        · omega
  · -- start-end
    have hr : fuseLines cur other = other.dropLast.reverse ++ cur := by
      rw [fuseLines, if_neg h1, if_pos h2]
    have hlen1 : other.dropLast.reverse.length = other.length - 1 := by simp
    have hrlen : (fuseLines cur other).length = other.length - 1 + cur.length := by
      rw [hr, List.length_append, hlen1]
    refine ⟨hr, by rw [sharedPoint, if_neg h1, if_pos h2], by omega,
      ⟨by omega, by omega, ?_⟩, ?_⟩
    · rw [hr, List.getElem?_append_right (by simp [hlen1]), hlen1, Nat.sub_self,
        ← List.head?_eq_getElem?, head?_eq_some_headD cur hcne]
    · intro q
      rw [hr, List.count_append, List.count_reverse]
      have h5 := count_dropLast_add other hone q
      rw [← h2] at h5
      by_cases hq : q = cur.headD (0, 0)
      · simp only [hq, if_pos rfl] at h5 ⊢; omega
      · simp only [hq, if_neg, ite_false] at h5 ⊢
        · omega
  · -- end-start
    have hr : fuseLines cur other = cur.dropLast ++ other := by
      rw [fuseLines, if_neg h1, if_neg h2, if_pos h3]
    have hlen1 : cur.dropLast.length = cur.length - 1 := by simp
    have hrlen : (fuseLines cur other).length = cur.length - 1 + other.length := by
      rw [hr, List.length_append, hlen1]
    refine ⟨hr, by rw [sharedPoint, if_neg h1, if_neg h2, if_pos h3], by omega,
      ⟨by omega, by omega, ?_⟩, ?_⟩
    · rw [hr, List.getElem?_append_right (by simp [hlen1]), hlen1, Nat.sub_self,
        ← List.head?_eq_getElem?, head?_eq_some_headD other hone, ← h3]
    · intro q
      rw [hr, List.count_append]
      have h5 := count_dropLast_add cur hcne q
      by_cases hq : q = cur.getLastD (0, 0)
      · simp only [hq, if_pos rfl] at h5 ⊢; omega
      · simp only [hq, if_neg, ite_false] at h5 ⊢
        · omega
  · -- end-end
    have hr : fuseLines cur other = cur.dropLast ++ other.reverse := by
      rw [fuseLines, if_neg h1, if_neg h2, if_neg h3, if_pos h4]
    have hlen1 : cur.dropLast.length = cur.length - 1 := by simp
    have hrlen : (fuseLines cur other).length = cur.length - 1 + other.length := by
      rw [hr, List.length_append, hlen1, List.length_reverse]
    refine ⟨hr, by rw [sharedPoint, if_neg h1, if_neg h2, if_neg h3], by omega,
      ⟨by omega, by omega, ?_⟩, ?_⟩
    · rw [hr, List.getElem?_append_right (by simp [hlen1]), hlen1, Nat.sub_self,
        ← List.head?_eq_getElem?,
        head?_eq_some_headD other.reverse (by simp [hone]), headD_reverse, ← h4]
    · intro q
      rw [hr, List.count_append, List.count_reverse]
      have h5 := count_dropLast_add cur hcne q
      by_cases hq : q = cur.getLastD (0, 0)
      · simp only [hq, if_pos rfl] at h5 ⊢; omega
      · simp only [hq, if_neg, ite_false] at h5 ⊢
        · omega

theorem fuse_chain_structure_witness :
    fuseLines [((1 : ℚ), (1 : ℚ)), (0, 0)] [(1, 1), (2, 2)] = [(0, 0), (1, 1), (2, 2)] ∧
    fuseLines [((1 : ℚ), (1 : ℚ)), (2, 2)] [(0, 0), (1, 1)] = [(0, 0), (1, 1), (2, 2)] ∧
    fuseLines [((0 : ℚ), (0 : ℚ)), (1, 1)] [(1, 1), (2, 2)] = [(0, 0), (1, 1), (2, 2)] ∧
    fuseLines [((0 : ℚ), (0 : ℚ)), (1, 1)] [(2, 2), (1, 1)] = [(0, 0), (1, 1), (2, 2)] :=
  ⟨(((fuse_chain_structure [(1, 1), (0, 0)] [(1, 1), (2, 2)]
        (by decide) (by decide)).1 (by decide)).1).trans (by decide),
    (((fuse_chain_structure [(1, 1), (2, 2)] [(0, 0), (1, 1)]
        (by decide) (by decide)).2.1 (by decide) (by decide)).1).trans (by decide),
    (((fuse_chain_structure [(0, 0), (1, 1)] [(1, 1), (2, 2)]
        (by decide) (by decide)).2.2.1 (by decide) (by decide) (by decide)).1).trans
      (by decide),
    (((fuse_chain_structure [(0, 0), (1, 1)] [(2, 2), (1, 1)]
        (by decide) (by decide)).2.2.2 (by decide) (by decide) (by decide)
        (by decide)).1).trans (by decide)⟩

theorem mergeOuter_cons_active (lines : List Line) (i : ℕ) (rest : List ℕ)
    (processed : List Bool) (merged : List Line)
    (h1 : processed.getD i true = false) (h2 : lines.getD i [] ≠ []) :
    mergeOuter lines (i :: rest) processed merged =
      mergeOuter lines rest
        ((mergeInner lines merged i (lines.getD i []) processed).2.set i true)
        (merged ++ [(mergeInner lines merged i (lines.getD i []) processed).1]) := by
  simp only [mergeOuter]
  rw [if_neg (by rw [h1]; decide), if_neg (by rw [List.isEmpty_iff]; exact h2)]

/-- Claim C2: a fuse fires only when the connection count at the candidate
shared point — other unprocessed lines plus finalized chains touching it — is
zero; consequently three segments meeting at one common point (a Y-junction),
pairwise sharing no other endpoint, never merge: the output is the three input
segments unchanged. -/
theorem merge_blocks_junctions :
    (∀ (lines merged : List Line) (i : ℕ) (st : MState) (j : ℕ),
      tryMergeJ lines merged i st j ≠ st →
      connCount lines st.processed merged i j
        (sharedPoint st.current (lines.getD j [])) = 0) ∧
    (∀ (p b1 b2 b3 : Point) (l1 l2 l3 : Line),
      2 ≤ l1.length → 2 ≤ l2.length → 2 ≤ l3.length →
      ((l1.headD (0, 0) = p ∧ l1.getLastD (0, 0) = b1) ∨
        (l1.headD (0, 0) = b1 ∧ l1.getLastD (0, 0) = p)) →
      ((l2.headD (0, 0) = p ∧ l2.getLastD (0, 0) = b2) ∨
        (l2.headD (0, 0) = b2 ∧ l2.getLastD (0, 0) = p)) →
      ((l3.headD (0, 0) = p ∧ l3.getLastD (0, 0) = b3) ∨
        (l3.headD (0, 0) = b3 ∧ l3.getLastD (0, 0) = p)) →
      p ≠ b1 → p ≠ b2 → p ≠ b3 → b1 ≠ b2 → b1 ≠ b3 → b2 ≠ b3 →
      merge_lines [l1, l2, l3] = [l1, l2, l3]) := by
  constructor
  · intro lines merged i st j hne
    rcases tryMergeJ_cases lines merged i st j with hc | ⟨_, _, _, _, hcc, _⟩
    · exact absurd hc hne
    · exact hcc
  · intro p b1 b2 b3 l1 l2 l3 hl1 hl2 hl3 he1 he2 he3 hpb1 hpb2 hpb3 hb12 hb13 hb23
    have hne1 : l1 ≠ [] := by intro h; subst h; simp at hl1
    have hne2 : l2 ≠ [] := by intro h; subst h; simp at hl2
    have hne3 : l3 ≠ [] := by intro h; subst h; simp at hl3
    have ht1 : touches p l1 = true := touches_star l1 p b1 hne1 he1
    have ht2 : touches p l2 = true := touches_star l2 p b2 hne2 he2
    have ht3 : touches p l3 = true := touches_star l3 p b3 hne3 he3
    have hstep1 : mergeInner [l1, l2, l3] [] 0 l1 [false, false, false] =
        (l1, [false, false, false]) := by
      refine mergeInner_id _ _ _ _ _ (mergeRound_id _ _ _ _ _ ?_)
      intro j hj
      have hj3 : j < 3 := hj
      interval_cases j
      · exact tryMergeJ_id_self _ _ _ _
      · refine tryMergeJ_id_of_conn _ _ _ _ _ ?_
        show connCount [l1, l2, l3] [false, false, false] [] 0 1
          (sharedPoint l1 l2) ≠ 0
        rw [sharedPoint_star l1 l2 p b1 b2 he1 he2 hpb1 hpb2 hb12]
        exact connCount_pos_of_touches [l1, l2, l3] [false, false, false] [] 0 1 2 p
          (by simp) (by decide) (by decide) rfl ht3
      · refine tryMergeJ_id_of_conn _ _ _ _ _ ?_
        show connCount [l1, l2, l3] [false, false, false] [] 0 2
          (sharedPoint l1 l3) ≠ 0
        rw [sharedPoint_star l1 l3 p b1 b3 he1 he3 hpb1 hpb3 hb13]
        exact connCount_pos_of_touches [l1, l2, l3] [false, false, false] [] 0 2 1 p
          (by simp) (by decide) (by decide) rfl ht2
    have hstep2 : mergeInner [l1, l2, l3] [l1] 1 l2 [true, false, false] =
        (l2, [true, false, false]) := by
      refine mergeInner_id _ _ _ _ _ (mergeRound_id _ _ _ _ _ ?_)
      intro j hj
      have hj3 : j < 3 := hj
      interval_cases j
      · exact tryMergeJ_id_of_processed _ _ _ _ 0 rfl
      · exact tryMergeJ_id_self _ _ _ _
      · refine tryMergeJ_id_of_conn _ _ _ _ _ ?_
        show connCount [l1, l2, l3] [true, false, false] [l1] 1 2
          (sharedPoint l2 l3) ≠ 0
        rw [sharedPoint_star l2 l3 p b2 b3 he2 he3 hpb2 hpb3 hb23]
        exact connCount_pos_of_merged [l1, l2, l3] [true, false, false] [l1] 1 2 p l1
          (by simp) ht1
    have hstep3 : mergeInner [l1, l2, l3] [l1, l2] 2 l3 [true, true, false] =
        (l3, [true, true, false]) := by
      refine mergeInner_id _ _ _ _ _ (mergeRound_id _ _ _ _ _ ?_)
      intro j hj
      have hj3 : j < 3 := hj
      interval_cases j
      · exact tryMergeJ_id_of_processed _ _ _ _ 0 rfl
      · exact tryMergeJ_id_of_processed _ _ _ _ 1 rfl
      · exact tryMergeJ_id_self _ _ _ _
    show mergeOuter [l1, l2, l3] [0, 1, 2] [false, false, false] [] = [l1, l2, l3]
    rw [mergeOuter_cons_active [l1, l2, l3] 0 [1, 2] [false, false, false] [] rfl hne1,
      show ([l1, l2, l3] : List Line).getD 0 [] = l1 from rfl, hstep1]
    show mergeOuter [l1, l2, l3] [1, 2] [true, false, false] [l1] = [l1, l2, l3]
    rw [mergeOuter_cons_active [l1, l2, l3] 1 [2] [true, false, false] [l1] rfl hne2,
      show ([l1, l2, l3] : List Line).getD 1 [] = l2 from rfl, hstep2]
    show mergeOuter [l1, l2, l3] [2] [true, true, false] [l1, l2] = [l1, l2, l3]
    rw [mergeOuter_cons_active [l1, l2, l3] 2 [] [true, true, false] [l1, l2] rfl hne3,
      show ([l1, l2, l3] : List Line).getD 2 [] = l3 from rfl, hstep3]
    rfl

theorem merge_blocks_junctions_witness :
    merge_lines [[((0 : ℚ), (0 : ℚ)), (1, 0)], [(0, 0), (0, 1)], [(0, 0), (-1, 0)]] =
      [[(0, 0), (1, 0)], [(0, 0), (0, 1)], [(0, 0), (-1, 0)]] :=
  merge_blocks_junctions.2 (0, 0) (1, 0) (0, 1) (-1, 0)
    [(0, 0), (1, 0)] [(0, 0), (0, 1)] [(0, 0), (-1, 0)]
    (by decide) (by decide) (by decide)
    (by decide) (by decide) (by decide)
    (by decide) (by decide) (by decide) (by decide) (by decide) (by decide)

end DrawCkt
